import Mathlib

/-!
Verification development for the dsrpt risk-engine core
(`packages/risk-engine/dsrpt_risk`): a shallow embedding in Lean 4 of the
hazard-curve calibration pipeline (EVT tail model, Hawkes process, regime
classifier, hazard calibrator, curve validator), with theorems settling the
behavioural claims about it.

Modelling conventions:
* Python floats are idealised as `ℚ` (or `ℝ` where a transcendental function
  is applied); machine integers are `ℤ`/`ℕ`.
* Python `//` on `int` is floor division, embedded as `Int.fdiv`; Python
  `int(x)` truncates toward zero, embedded as `pyInt` / `pyIntR`.
* Transcendental functions (`exp`, `log`) and external numeric routines
  (`scipy.optimize.minimize`, `sklearn.KMeans`, numpy's RNG) are embedded as
  explicit function parameters ("oracles"): theorems quantify over them, so a
  result holds for every possible value those routines can return, and
  counterexamples exhibit concrete realisable values.  Where a claim hinges on
  the exact value of `log`, the embedding uses `Real.log` directly.
* `raise ValueError` is embedded as `Except.error`.
-/

/-- Python `int()` truncation toward zero on a rational. -/
def pyInt (q : ℚ) : ℤ := if 0 ≤ q then ⌊q⌋ else ⌈q⌉

/-- Python `int()` truncation toward zero on a real. -/
noncomputable def pyIntR (x : ℝ) : ℤ := if 0 ≤ x then ⌊x⌋ else ⌈x⌉

/-- Market regimes (`RegimeKind` in `models/regime.py`), with integer codes
0, 1, 2 matching the Python `IntEnum`. -/
inductive RegimeKind where
  | CALM
  | VOLATILE
  | CRISIS
deriving DecidableEq, Repr

/-- The `IntEnum` value of a regime. -/
def RegimeKind.val : RegimeKind → ℕ
  | .CALM => 0
  | .VOLATILE => 1
  | .CRISIS => 2

/-- `HazardCurve` from `calibration/hazard.py`: integer hazard values scaled
by 10^18 for on-chain use. -/
structure HazardCurve where
  regime : RegimeKind
  H_7d : ℤ
  H_30d : ℤ
  H_90d : ℤ
  tail_slope : ℤ
  calibration_date : String := ""
  n_simulations : ℕ := 10000
deriving DecidableEq, Repr

/-- `HazardCurve.interpolate`: piecewise-linear interpolation of the hazard at
an arbitrary tenor, using Python floor division (matching on-chain logic). -/
def HazardCurve.interpolate (c : HazardCurve) (tenor_days : ℤ) : ℤ :=
  if tenor_days ≤ 0 then 0
  else if tenor_days ≤ 7 then (c.H_7d * tenor_days).fdiv 7
  else if tenor_days ≤ 30 then
    c.H_7d + ((c.H_30d - c.H_7d) * (tenor_days - 7)).fdiv (30 - 7)
  else if tenor_days ≤ 90 then
    c.H_30d + ((c.H_90d - c.H_30d) * (tenor_days - 30)).fdiv (90 - 30)
  else c.H_90d + c.tail_slope * (tenor_days - 90)

/-- `RegimeCurveSet` from `calibration/hazard.py`. -/
structure RegimeCurveSet where
  peril_id : String
  calm : HazardCurve
  volatile : HazardCurve
  crisis : HazardCurve
  min_premium_bps : ℤ := 25
  max_multiplier_bps : ℤ := 30000
deriving DecidableEq, Repr

/-- `ValidationResult` from `calibration/validation.py`. -/
structure ValidationResult where
  is_valid : Bool
  monotonicity_check : Bool
  brier_score : ℚ
  calibration_drift : ℚ
  expected_loss_ratio : ℚ
  warnings : List String
deriving DecidableEq, Repr

/-- `CurveValidator._check_monotonicity`: Python chained comparison
`curve.H_7d <= curve.H_30d <= curve.H_90d`. -/
def checkMonotonicity (c : HazardCurve) : Bool :=
  decide (c.H_7d ≤ c.H_30d) && decide (c.H_30d ≤ c.H_90d)

/-- `CurveValidator._validate_single_curve`.  The two Monte-Carlo helpers
`_compute_brier_score` and `_check_expected_loss` draw from a seeded RNG and
evaluate `exp`; they are passed in as function parameters `computeBrier` and
`checkExpectedLoss` (the latter returning the `(el_ratio, drift)` pair), so
every theorem below quantifies over all values they can produce.  Warning
strings that the source builds with interpolated numbers are embedded by
their fixed prefix; the monotonicity warning is the exact source string. -/
def validateSingleCurve (tolerance : ℚ)
    (computeBrier : HazardCurve → List (ℚ × ℚ) → ℚ)
    (checkExpectedLoss : HazardCurve → ℚ × ℚ)
    (curve : HazardCurve) (historical_events : Option (List (ℚ × ℚ))) :
    ValidationResult :=
  let monotonic := checkMonotonicity curve
  let warnings0 : List String :=
    if monotonic then [] else ["Hazard curve is not monotonically increasing"]
  let brier : ℚ := match historical_events with
    | none => 0
    | some h => computeBrier curve h
  let warnings1 : List String := warnings0 ++
    (match historical_events with
     | none => []
     | some _ => if 1/10 < brier then ["High Brier score"] else [])
  let el := checkExpectedLoss curve
  let warnings2 : List String := warnings1 ++
    (if tolerance < el.2 then ["Calibration drift exceeds tolerance"] else [])
  { is_valid := monotonic && decide (el.2 ≤ tolerance)
    monotonicity_check := monotonic
    brier_score := brier
    calibration_drift := el.2
    expected_loss_ratio := el.1
    warnings := warnings2 }

/-- `RiskEngine._extract_events` grouping loop (`engine.py`): walks the
per-day deviation flags, opening an event on the first breach day, extending
it with the running maximum, and emitting `(start, max)` when the breach
ends; a trailing open event is emitted at the end. -/
def extractEventsAux (thr : ℚ) :
    List (ℕ × ℚ) → Bool → ℕ → ℚ → List (ℕ × ℚ)
  | [], inEvent, eStart, eMax => if inEvent then [(eStart, eMax)] else []
  | (i, d) :: rest, inEvent, eStart, eMax =>
    if thr < d then
      if inEvent then extractEventsAux thr rest true eStart (max eMax d)
      else extractEventsAux thr rest true i d
    else
      if inEvent then (eStart, eMax) :: extractEventsAux thr rest false eStart eMax
      else extractEventsAux thr rest false eStart eMax

/-- `RiskEngine._extract_events`: deviations are `|1 - p| * 10000` bps,
events are breaches above `threshold_bps`; an empty event list is replaced by
the sentinel `[(0, 0)]`. -/
def extractEvents (prices : List ℚ) (threshold_bps : ℚ) : List (ℕ × ℚ) :=
  let deviations := prices.map (fun p => |1 - p| * 10000)
  let events := extractEventsAux threshold_bps deviations.enum false 0 0
  if events = [] then [(0, 0)] else events

lemma extractEventsAux_all_below (thr : ℚ) :
    ∀ (l : List (ℕ × ℚ)) (s : ℕ) (m : ℚ), (∀ x ∈ l, x.2 ≤ thr) →
      extractEventsAux thr l false s m = [] := by
  intro l
  induction l with
  | nil => intro s m _; rfl
  | cons hd tl ih =>
    intro s m hall
    obtain ⟨i, d⟩ := hd
    have hd2 : d ≤ thr := hall (i, d) (List.mem_cons_self _ _)
    have : ¬ thr < d := not_lt.mpr hd2
    simp only [extractEventsAux, if_neg this]
    exact ih s m (fun x hx => hall x (List.mem_cons_of_mem _ hx))

/-- Claim C10: `RiskEngine._extract_events` never returns an empty list; when
no day's absolute deviation from 1.0 exceeds the 100-bps threshold it returns
exactly the sentinel event list `[(0, 0)]`. -/
theorem extractEvents_never_empty (prices : List ℚ) :
    extractEvents prices 100 ≠ [] ∧
      ((∀ p ∈ prices, |1 - p| * 10000 ≤ 100) →
        extractEvents prices 100 = [(0, 0)]) := by
  constructor
  · simp only [extractEvents]
    split
    · simp
    · assumption
  · intro hall
    simp only [extractEvents]
    have hdev : ∀ x ∈ (prices.map (fun p => |1 - p| * 10000)).enum, x.2 ≤ 100 := by
      intro x hx
      have hmem : x.2 ∈ prices.map (fun p => |1 - p| * 10000) := by
        rw [← List.enum_map_snd (prices.map (fun p => |1 - p| * 10000))]
        exact List.mem_map_of_mem Prod.snd hx
      obtain ⟨p, hp, hval⟩ := List.mem_map.mp hmem
      exact hval ▸ hall p hp
    rw [extractEventsAux_all_below 100 _ 0 0 hdev]
    simp

/-- Claim C10 witness: the concrete series `[1, 1001/1000]` deviates by at
most 10 bps, so the sentinel is returned. -/
theorem extractEvents_never_empty_witness :
    extractEvents [1, 1001/1000] 100 ≠ [] ∧
      extractEvents [1, 1001/1000] 100 = [(0, 0)] :=
  ⟨(extractEvents_never_empty [1, 1001/1000]).1,
   (extractEvents_never_empty [1, 1001/1000]).2 (by
      intro p hp
      rcases (by simpa using hp : p = 1 ∨ p = 1001/1000) with rfl | rfl
      · norm_num
      · have h1 : (1 : ℚ) - 1001/1000 = -(1/1000) := by norm_num
        rw [h1, abs_neg, abs_of_nonneg (by norm_num : (0:ℚ) ≤ 1/1000)]
        norm_num)⟩

/-- Claim C6: the integer floor-division interpolation reproduces the knots
exactly: `interpolate 7 = H_7d`, `interpolate 30 = H_30d`,
`interpolate 90 = H_90d`, for every `HazardCurve`. -/
theorem interpolate_at_knots (c : HazardCurve) :
    c.interpolate 7 = c.H_7d ∧ c.interpolate 30 = c.H_30d ∧
      c.interpolate 90 = c.H_90d := by
  refine ⟨?_, ?_, ?_⟩
  · show HazardCurve.interpolate c 7 = c.H_7d
    unfold HazardCurve.interpolate
    norm_num
  · show HazardCurve.interpolate c 30 = c.H_30d
    unfold HazardCurve.interpolate
    norm_num
  · show HazardCurve.interpolate c 90 = c.H_90d
    unfold HazardCurve.interpolate
    norm_num

/-- Claim C9: the validator's verdict is exactly
`monotonicity AND drift ≤ tolerance` (for every curve, tolerance, historical
table and every value of the Monte-Carlo helpers), and on the hand-built
curve with `H_30d = H_7d - 1` it reports `is_valid = false` together with the
monotonicity warning. -/
theorem validator_is_valid_iff (tol : ℚ)
    (cb : HazardCurve → List (ℚ × ℚ) → ℚ) (cel : HazardCurve → ℚ × ℚ)
    (c : HazardCurve) (hist : Option (List (ℚ × ℚ))) :
    ((validateSingleCurve tol cb cel c hist).is_valid =
      ((validateSingleCurve tol cb cel c hist).monotonicity_check &&
        decide ((validateSingleCurve tol cb cel c hist).calibration_drift ≤ tol))) ∧
    ((validateSingleCurve tol cb cel
        { regime := .CALM, H_7d := 100, H_30d := 99, H_90d := 200,
          tail_slope := 0 } hist).is_valid = false ∧
      "Hazard curve is not monotonically increasing" ∈
        (validateSingleCurve tol cb cel
          { regime := .CALM, H_7d := 100, H_30d := 99, H_90d := 200,
            tail_slope := 0 } hist).warnings) := by
  refine ⟨by simp [validateSingleCurve], ?_, ?_⟩
  · simp [validateSingleCurve, checkMonotonicity]
  · simp [validateSingleCurve, checkMonotonicity]

/-! ## Regime classifier (`models/regime.py`) -/

/-- `np.argsort` on a 1-d array: the list of indices that sorts the values
ascending (stable: ties keep original order). -/
def npArgsort (l : List ℚ) : List ℕ :=
  List.insertionSort
    (fun i j => l.getD i 0 < l.getD j 0 ∨ (l.getD i 0 = l.getD j 0 ∧ i ≤ j))
    (List.range l.length)

/-- `RegimeClassifier._fit_kmeans` ordering step: `_regime_order` is
`np.argsort(centers[:, 0])`, the cluster centres sorted ascending by their
first coordinate (volatility).  `centers` is the `KMeans.cluster_centers_`
output, passed in explicitly since k-means itself is an external routine. -/
def regimeOrder (centers : List (List ℚ)) : List ℕ :=
  npArgsort (centers.map (fun c => c.headD 0))

/-- `np.argmax`: index of the first maximal element. -/
def argmaxIdxAux : List ℚ → ℕ → ℚ → ℕ → ℕ
  | [], best, _, _ => best
  | x :: rest, best, bestVal, cur =>
    if bestVal < x then argmaxIdxAux rest cur x (cur + 1)
    else argmaxIdxAux rest best bestVal (cur + 1)

/-- `np.argmax` over a probability vector. -/
def argmaxIdx : List ℚ → ℕ
  | [] => 0
  | x :: rest => argmaxIdxAux rest 0 x 1

/-- `RegimeClassifier.classify`, k-means branch, line 160:
`regime_idx = self._regime_order[np.argmax(probs)]` — the returned
`RegimeKind` integer code.  `probs` is the softmax of negative cluster
distances (indexed by internal cluster), passed in explicitly. -/
def kmeansClassifyRegime (order : List ℕ) (probs : List ℚ) : ℕ :=
  order.getD (argmaxIdx probs) 0

/-- The internal cluster index that `classify` maps to external regime `r`:
the `k` with `_regime_order[k] = r`. -/
def clusterMappedTo (centers : List (List ℚ)) (r : ℕ) : ℕ :=
  (((List.range centers.length).filter
    (fun k => (regimeOrder centers).getD k 0 == r))).headD 0

/-- First coordinate (volatility) of the centroid of the cluster that
`classify` maps to external regime `r`. -/
def centroidFirstOfRegime (centers : List (List ℚ)) (r : ℕ) : ℚ :=
  (centers.getD (clusterMappedTo centers r) []).headD 0

/-- Claim C3 (failing-input evaluation): with fitted k-means centres whose
first coordinates are (2, 0, 1) for internal clusters 0, 1, 2,
`_regime_order = argsort = [1, 2, 0]`; an observation nearest internal
cluster 1 — the LOWEST-volatility cluster — is classified as regime
`_regime_order[1] = 2` (CRISIS), and the centroid first coordinates of the
clusters mapped to CALM, VOLATILE, CRISIS are (1, 2, 0), which is not
non-decreasing.  `argsort` yields the rank→internal permutation but
`classify` applies it as internal→external, so the claimed risk ordering
fails whenever the permutation is a 3-cycle. -/
theorem regime_order_misapplied :
    regimeOrder [[2], [0], [1]] = [1, 2, 0] ∧
    kmeansClassifyRegime (regimeOrder [[2], [0], [1]]) [0, 1, 0] = 2 ∧
    ¬ (centroidFirstOfRegime [[2], [0], [1]] 0 ≤
         centroidFirstOfRegime [[2], [0], [1]] 1 ∧
       centroidFirstOfRegime [[2], [0], [1]] 1 ≤
         centroidFirstOfRegime [[2], [0], [1]] 2) := by
  refine ⟨by decide, by decide, by decide⟩

/-! ## EVT model (`models/evt.py`) -/

/-- `GPDParams` from `models/evt.py`. -/
structure GPDParams where
  xi : ℚ
  beta : ℚ
  threshold : ℚ
  n_excesses : ℕ
  n_total : ℕ
deriving DecidableEq, Repr

/-- Fitted `EVTModel` state: `gpd_params` and the stored `self._data`. -/
structure EVTModel where
  gpd_params : Option GPDParams
  data : List ℚ
deriving DecidableEq, Repr

/-- `np.quantile` with the default linear interpolation: for sorted values
`s` and `h = q * (n - 1)`, returns
`s[floor h] + (h - floor h) * (s[min (floor h + 1) (n-1)] - s[floor h])`. -/
def npQuantile (data : List ℚ) (q : ℚ) : ℚ :=
  let s := List.insertionSort (· ≤ ·) data
  let n := s.length
  let h : ℚ := q * ((n : ℚ) - 1)
  let k : ℕ := (⌊h⌋).toNat
  let g : ℚ := h - (⌊h⌋ : ℚ)
  s.getD k 0 + g * (s.getD (min (k + 1) (n - 1)) 0 - s.getD k 0)

/-- `EVTModel._fit_gpd_pwm`: probability-weighted-moment estimators on the
sorted excesses. -/
def fitGpdPwm (excesses : List ℚ) : ℚ × ℚ :=
  let n := excesses.length
  let s := List.insertionSort (· ≤ ·) excesses
  let weights := (List.range n).map (fun (i : ℕ) => ((i : ℚ) + 1) / ((n : ℚ) + 1))
  let m0 := s.sum / (n : ℚ)
  let m1 := ((s.zip weights).map (fun p => p.1 * p.2)).sum / (n : ℚ)
  (2 - m0 / (m0 - 2 * m1), 2 * m0 * m1 / (m0 - 2 * m1))

/-- `EVTModel.fit`: threshold at the given quantile (`np.quantile` rejects a
quantile outside [0, 1]), excesses strictly above it, an insufficient-data
error below 10 excesses, then method dispatch.  `_fit_gpd_mle` runs
`scipy.optimize.minimize`, so it is a function parameter `fitMle`; the PWM
branch is the concrete `fitGpdPwm`.  Note the source performs NO validation
of `threshold_quantile` against the documented range [0.9, 0.99]. -/
def fitEVT (fitMle : List ℚ → ℚ × ℚ) (data : List ℚ)
    (threshold_quantile : ℚ) (method : String) : Except String EVTModel :=
  if threshold_quantile < 0 ∨ 1 < threshold_quantile then
    .error "Quantiles must be in the range 0 to 1"
  else
    let threshold := npQuantile data threshold_quantile
    let excesses :=
      (data.filter (fun x => decide (threshold < x))).map (fun x => x - threshold)
    if excesses.length < 10 then .error "Insufficient excesses for GPD fitting"
    else
      match method with
      | "mle" => .ok ⟨some ⟨(fitMle excesses).1, (fitMle excesses).2,
          threshold, excesses.length, data.length⟩, data⟩
      | "pwm" => .ok ⟨some ⟨(fitGpdPwm excesses).1, (fitGpdPwm excesses).2,
          threshold, excesses.length, data.length⟩, data⟩
      | _ => .error "Unknown method"

/-- `EVTModel.tail_probability`: below the threshold the empirical survival
fraction `np.mean(data > x)`; above it the GPD survival.  The transcendental
pieces `exp(-u)` and `t ^ (-1/xi)` are the parameters `expNeg` and
`powNegInv`. -/
def tailProbability (expNeg : ℚ → ℚ) (powNegInv : ℚ → ℚ → ℚ)
    (m : EVTModel) (x : ℚ) : Except String ℚ :=
  match m.gpd_params with
  | none => .error "Model not fitted"
  | some params =>
    if x ≤ params.threshold then
      .ok ((m.data.countP (fun v => decide (x < v)) : ℚ) / (m.data.length : ℚ))
    else
      let excess := x - params.threshold
      let pet : ℚ := (params.n_excesses : ℚ) / (params.n_total : ℚ)
      if params.xi = 0 then .ok (pet * expNeg (excess / params.beta))
      else
        let term := 1 + params.xi * excess / params.beta
        if term ≤ 0 then .ok 0
        else .ok (pet * powNegInv term params.xi)

/-- `EVTModel.value_at_risk`: when the exceedance probability `1 - alpha` is
at least `n_excesses / n_total`, the empirical `alpha`-quantile; otherwise
the inverted GPD survival function (`log` and `y ^ (-xi)` are the parameters
`logFn` and `powNeg`). -/
def valueAtRisk (logFn : ℚ → ℚ) (powNeg : ℚ → ℚ → ℚ)
    (m : EVTModel) (alpha : ℚ) : Except String ℚ :=
  match m.gpd_params with
  | none => .error "Model not fitted"
  | some params =>
    let p := 1 - alpha
    let pet : ℚ := (params.n_excesses : ℚ) / (params.n_total : ℚ)
    if pet ≤ p then .ok (npQuantile m.data alpha)
    else
      let y := p / pet
      if params.xi = 0 then .ok (params.threshold + -params.beta * logFn y)
      else .ok (params.threshold + params.beta / params.xi * (powNeg y params.xi - 1))

/-! Order lemmas about sorted lists, `npQuantile` and exceedance counts. -/

lemma sorted_getElem_le {d : List ℚ} (hsort : d.Sorted (· < ·))
    {i j : ℕ} (hi : i < d.length) (hj : j < d.length) (hij : i ≤ j) :
    d[i] ≤ d[j] := by
  rcases eq_or_lt_of_le hij with rfl | hlt
  · exact le_refl _
  · exact le_of_lt (List.pairwise_iff_getElem.mp hsort i j hi hj hlt)

lemma countP_gt_split (d : List ℚ) (v : ℚ) (m : ℕ) (hmn : m ≤ d.length)
    (hlow : ∀ (i : ℕ) (hi : i < d.length), i < m → d[i] ≤ v)
    (hhigh : ∀ (i : ℕ) (hi : i < d.length), m ≤ i → v < d[i]) :
    d.countP (fun x => decide (v < x)) = d.length - m := by
  conv_lhs => rw [← List.take_append_drop m d]
  rw [List.countP_append]
  have h1 : (d.take m).countP (fun x => decide (v < x)) = 0 := by
    rw [List.countP_eq_zero]
    intro a ha
    obtain ⟨i, hi, rfl⟩ := List.mem_iff_getElem.mp ha
    have hi2 : i < m := lt_of_lt_of_le hi (by simp [List.length_take])
    have hi3 : i < d.length := lt_of_lt_of_le hi2 hmn
    rw [List.getElem_take]
    simpa using not_lt.mpr (hlow i hi3 hi2)
  have h2 : (d.drop m).countP (fun x => decide (v < x)) = (d.drop m).length := by
    rw [List.countP_eq_length]
    intro a ha
    obtain ⟨j, hj, rfl⟩ := List.mem_iff_getElem.mp ha
    have hj2 : m + j < d.length := by
      have := hj
      simp only [List.length_drop] at this
      omega
    rw [List.getElem_drop]
    simpa using hhigh (m + j) hj2 (Nat.le_add_right m j)
  rw [h1, h2, List.length_drop, Nat.zero_add]

lemma countP_gt_of_between (d : List ℚ) (hsort : d.Sorted (· < ·)) (m : ℕ)
    (hm1 : 1 ≤ m) (hmn : m < d.length) (v : ℚ)
    (h1 : d.getD (m - 1) 0 ≤ v) (h2 : v < d.getD m 0) :
    d.countP (fun x => decide (v < x)) = d.length - m := by
  have hm1n : m - 1 < d.length := lt_of_le_of_lt (Nat.sub_le m 1) hmn
  rw [List.getD_eq_getElem _ _ hm1n] at h1
  rw [List.getD_eq_getElem _ _ hmn] at h2
  refine countP_gt_split d v m (le_of_lt hmn) ?_ ?_
  · intro i hi him
    exact le_trans (sorted_getElem_le hsort hi hm1n (by omega)) h1
  · intro i hi him
    exact lt_of_lt_of_le h2 (sorted_getElem_le hsort hmn hi him)

lemma npQuantile_between (d : List ℚ) (hsort : d.Sorted (· < ·)) (m : ℕ)
    (α : ℚ) (hm1 : 1 ≤ m) (hmn : m < d.length)
    (hfl : ⌊α * ((d.length : ℚ) - 1)⌋ = (m : ℤ) - 1)
    (hlt : ((m : ℚ) - 1) < α * ((d.length : ℚ) - 1)) :
    d.getD (m - 1) 0 < npQuantile d α ∧ npQuantile d α < d.getD m 0 := by
  have hsle : d.Sorted (· ≤ ·) := hsort.imp le_of_lt
  have hm1n : m - 1 < d.length := lt_of_le_of_lt (Nat.sub_le m 1) hmn
  have hse : List.insertionSort (· ≤ ·) d = d := hsle.insertionSort_eq
  simp only [npQuantile, hse]
  have hk : (⌊α * ((d.length : ℚ) - 1)⌋).toNat = m - 1 := by
    rw [hfl]; omega
  rw [hk, hfl]
  have hmin : min (m - 1 + 1) (d.length - 1) = m := by omega
  rw [hmin]
  set g : ℚ := α * ((d.length : ℚ) - 1) - ((m : ℤ) - 1 : ℤ) with hg
  have hg0 : 0 < g := by
    rw [hg]; push_cast; linarith
  have hg1 : g < 1 := by
    have := Int.lt_floor_add_one (α * ((d.length : ℚ) - 1))
    rw [hfl] at this
    rw [hg]; push_cast at this ⊢; linarith
  rw [List.getD_eq_getElem _ _ hm1n, List.getD_eq_getElem _ _ hmn]
  have hgap : d[m - 1] < d[m] :=
    List.pairwise_iff_getElem.mp hsort (m - 1) m hm1n hmn (by omega)
  constructor
  · nlinarith
  · nlinarith

/-- Strictly increasing test data `[1, 2, ..., n]` as rationals. -/
def ramp (n : ℕ) : List ℚ := (List.range n).map (fun (i : ℕ) => (i : ℚ) + 1)

lemma ramp_length (n : ℕ) : (ramp n).length = n := by
  simp only [ramp, List.length_map, List.length_range]

lemma ramp_getElem (n i : ℕ) (h : i < (ramp n).length) :
    (ramp n)[i] = (i : ℚ) + 1 := by
  simp only [ramp, List.getElem_map, List.getElem_range]

lemma ramp_sorted (n : ℕ) : (ramp n).Sorted (· < ·) := by
  rw [List.Sorted, List.pairwise_iff_getElem]
  intro i j hi hj hij
  rw [ramp_getElem n i hi, ramp_getElem n j hj]
  have : (i : ℚ) < (j : ℚ) := by exact_mod_cast hij
  linarith

lemma ramp_getD (n i : ℕ) (h : i < n) : (ramp n).getD i 0 = (i : ℚ) + 1 := by
  rw [List.getD_eq_getElem _ _ (by rw [ramp_length]; exact h), ramp_getElem]

lemma npQuantile_ramp_between (n m : ℕ) (α : ℚ) (hm1 : 1 ≤ m) (hmn : m < n)
    (hfl : ⌊α * ((n : ℚ) - 1)⌋ = (m : ℤ) - 1)
    (hlt : ((m : ℚ) - 1) < α * ((n : ℚ) - 1)) :
    (m : ℚ) < npQuantile (ramp n) α ∧ npQuantile (ramp n) α < (m : ℚ) + 1 := by
  have h := npQuantile_between (ramp n) (ramp_sorted n) m α hm1
    (by rw [ramp_length]; exact hmn)
    (by rw [ramp_length]; exact_mod_cast hfl)
    (by rw [ramp_length]; exact_mod_cast hlt)
  rw [ramp_getD n (m - 1) (by omega), ramp_getD n m hmn] at h
  have hcast : ((m - 1 : ℕ) : ℚ) + 1 = (m : ℚ) := by
    push_cast [Nat.cast_sub hm1]
    ring
  rw [hcast] at h
  exact h

lemma countP_gt_ramp (n m : ℕ) (v : ℚ) (hm1 : 1 ≤ m) (hmn : m < n)
    (h1 : (m : ℚ) ≤ v) (h2 : v < (m : ℚ) + 1) :
    (ramp n).countP (fun x => decide (v < x)) = n - m := by
  have := countP_gt_of_between (ramp n) (ramp_sorted n) m hm1
    (by rw [ramp_length]; exact hmn) v
    (by rw [ramp_getD n (m - 1) (by omega)]
        have hcast : ((m - 1 : ℕ) : ℚ) + 1 = (m : ℚ) := by
          push_cast [Nat.cast_sub hm1]; ring
        rw [hcast]; exact h1)
    (by rw [ramp_getD n m hmn]; exact h2)
  rw [ramp_length] at this
  exact this

/-- The threshold selected by `fit` on `[1..100]` at quantile 0.9
(`= 90.1`, kept symbolic). -/
def evtThresholdCex : ℚ := npQuantile (ramp 100) (9/10)

/-- Excesses over that threshold (the ten values `0.9, 1.9, ..., 9.9`). -/
def evtExcessesCex : List ℚ :=
  ((ramp 100).filter (fun x => decide (evtThresholdCex < x))).map
    (fun x => x - evtThresholdCex)

/-- The `GPDParams` that `fit([1..100], 0.9, "pwm")` produces. -/
def evtParamsCex : GPDParams :=
  ⟨(fitGpdPwm evtExcessesCex).1, (fitGpdPwm evtExcessesCex).2,
    evtThresholdCex, evtExcessesCex.length, 100⟩

/-- The fitted `EVTModel` state after `fit([1..100], 0.9, "pwm")`. -/
def evtModelCex : EVTModel := ⟨some evtParamsCex, ramp 100⟩

lemma evtThresholdCex_between : (90 : ℚ) < evtThresholdCex ∧ evtThresholdCex < 91 := by
  have h := npQuantile_ramp_between 100 90 (9/10) (by norm_num) (by norm_num)
    (by norm_num) (by norm_num)
  norm_num at h
  simpa [evtThresholdCex] using h

lemma evtExcessesCex_length : evtExcessesCex.length = 10 := by
  have h := countP_gt_ramp 100 90 evtThresholdCex (by norm_num) (by norm_num)
    (le_of_lt evtThresholdCex_between.1)
    (by norm_num; exact evtThresholdCex_between.2)
  simp only [evtExcessesCex, List.length_map, ← List.countP_eq_length_filter,
    evtThresholdCex] at h ⊢
  rw [h]

/-- Claim C4 (amended): when `alpha` is an exact multiple `m / n_total` of the
empirical grid (with `1 ≤ m < n_total`, distinct observations, and both legs
in their empirical branches), the round trip
`tail_probability(value_at_risk(alpha))` equals `1 - alpha` exactly.  For
other `alpha` the round trip is still a multiple of `1 / n_total` and can
miss `1 - alpha` by up to `1 / n_total`, far beyond 1e-6. -/
theorem evt_var_roundtrip_exact (expNeg : ℚ → ℚ) (powNegInv : ℚ → ℚ → ℚ)
    (logFn : ℚ → ℚ) (powNeg : ℚ → ℚ → ℚ)
    (d : List ℚ) (p : GPDParams) (m : ℕ)
    (hsort : d.Sorted (· < ·)) (hm1 : 1 ≤ m) (hmn : m < d.length)
    (hbr : (p.n_excesses : ℚ) / (p.n_total : ℚ) ≤ 1 - (m : ℚ) / (d.length : ℚ))
    (hth : npQuantile d ((m : ℚ) / (d.length : ℚ)) ≤ p.threshold) :
    (valueAtRisk logFn powNeg ⟨some p, d⟩ ((m : ℚ) / (d.length : ℚ))).bind
        (fun v => tailProbability expNeg powNegInv ⟨some p, d⟩ v) =
      .ok (1 - (m : ℚ) / (d.length : ℚ)) := by
  have hn0 : (0 : ℚ) < (d.length : ℚ) := by
    have : 0 < d.length := lt_of_le_of_lt (Nat.zero_le m) hmn
    exact_mod_cast this
  have hα0 : 0 < (m : ℚ) / (d.length : ℚ) := by
    apply div_pos _ hn0
    exact_mod_cast hm1
  have hα1 : (m : ℚ) / (d.length : ℚ) < 1 := by
    rw [div_lt_one hn0]
    exact_mod_cast hmn
  have hprod : ((m : ℚ) / (d.length : ℚ)) * ((d.length : ℚ) - 1) =
      (m : ℚ) - (m : ℚ) / (d.length : ℚ) := by
    field_simp
    ring
  have hfl : ⌊((m : ℚ) / (d.length : ℚ)) * ((d.length : ℚ) - 1)⌋ = (m : ℤ) - 1 := by
    rw [Int.floor_eq_iff, hprod]
    constructor
    · push_cast; linarith
    · push_cast; linarith
  have hlt : ((m : ℚ) - 1) < ((m : ℚ) / (d.length : ℚ)) * ((d.length : ℚ) - 1) := by
    rw [hprod]; linarith
  have hbetween := npQuantile_between d hsort m _ hm1 hmn hfl hlt
  simp only [valueAtRisk]
  rw [if_pos hbr]
  show tailProbability expNeg powNegInv ⟨some p, d⟩
      (npQuantile d ((m : ℚ) / (d.length : ℚ))) = _
  simp only [tailProbability]
  rw [if_pos hth]
  congr 1
  rw [countP_gt_of_between d hsort m hm1 hmn _ (le_of_lt hbetween.1) hbetween.2]
  have hc : ((d.length - m : ℕ) : ℚ) = (d.length : ℚ) - (m : ℚ) := by
    push_cast [Nat.cast_sub (le_of_lt hmn)]
    ring
  rw [hc]
  field_simp

/-- Claim C4 witness: on data `[1..5]` with `alpha = 2/5` (a grid multiple)
the round trip returns exactly `1 - 2/5 = 3/5`. -/
theorem evt_var_roundtrip_exact_witness :
    (valueAtRisk (fun q => q) (fun y _ => y)
        ⟨some ⟨0, 1, 100, 0, 5⟩, [1, 2, 3, 4, 5]⟩
        ((2 : ℚ) / (([1, 2, 3, 4, 5] : List ℚ).length : ℚ))).bind
      (fun v => tailProbability (fun u => u) (fun t _ => t)
        ⟨some ⟨0, 1, 100, 0, 5⟩, [1, 2, 3, 4, 5]⟩ v) =
      .ok (1 - (2 : ℚ) / (([1, 2, 3, 4, 5] : List ℚ).length : ℚ)) := by
  refine evt_var_roundtrip_exact (fun u => u) (fun t _ => t) (fun q => q)
    (fun y _ => y) [1, 2, 3, 4, 5] ⟨0, 1, 100, 0, 5⟩ 2 (by decide) (by norm_num)
    (by norm_num) (by norm_num) ?_
  have hb := npQuantile_between [1, 2, 3, 4, 5] (by decide) 2
    ((2 : ℚ) / (([1, 2, 3, 4, 5] : List ℚ).length : ℚ))
    (by norm_num) (by norm_num) (by norm_num) (by norm_num)
  have h3 : ([1, 2, 3, 4, 5] : List ℚ).getD 2 0 = 3 := by norm_num
  rw [h3] at hb
  show npQuantile [1, 2, 3, 4, 5] _ ≤ (100 : ℚ)
  linarith [hb.2]

/-- Claim C4 counterexample: on the model fitted by
`fit([1..100], threshold_quantile=0.9, method="pwm")` and
`alpha = 0.555` — which satisfies the claim's precondition
`1 - alpha = 0.445 ≥ n_excesses/n_total = 0.1` — the round trip
`tail_probability(value_at_risk(alpha))` returns `0.45`, which differs from
`1 - alpha = 0.445` by `0.005 > 1e-6`. -/
theorem evt_var_roundtrip_cex :
    fitEVT (fun _ => (0, 0)) (ramp 100) (9/10) "pwm" = .ok evtModelCex ∧
    (evtParamsCex.n_excesses : ℚ) / (evtParamsCex.n_total : ℚ) ≤ 1 - 111/200 ∧
    (valueAtRisk (fun q => q) (fun y _ => y) evtModelCex (111/200)).bind
        (fun v => tailProbability (fun u => u) (fun t _ => t) evtModelCex v) =
      .ok (9/20) ∧
    ¬ (|(9/20 : ℚ) - (1 - 111/200)| ≤ 1/1000000) := by
  have hlen10 := evtExcessesCex_length
  refine ⟨?_, ?_, ?_, ?_⟩
  · simp only [fitEVT]
    rw [if_neg (by norm_num : ¬ ((9 : ℚ)/10 < 0 ∨ (1 : ℚ) < 9/10))]
    have hEq : ((ramp 100).filter
        (fun x => decide (npQuantile (ramp 100) (9/10) < x))).map
          (fun x => x - npQuantile (ramp 100) (9/10)) = evtExcessesCex := rfl
    rw [hEq, if_neg (show ¬ (evtExcessesCex.length < 10) by rw [hlen10]; norm_num)]
    simp [evtModelCex, evtParamsCex, evtThresholdCex, ramp_length]
  · simp only [evtParamsCex, hlen10]
    norm_num
  · have hv := npQuantile_ramp_between 100 55 (111/200) (by norm_num)
      (by norm_num) (by norm_num) (by norm_num)
    norm_num at hv
    have hthr := evtThresholdCex_between
    simp only [evtModelCex, valueAtRisk]
    rw [if_pos (show (evtParamsCex.n_excesses : ℚ) / (evtParamsCex.n_total : ℚ) ≤
        1 - 111/200 by
      simp only [evtParamsCex]
      rw [hlen10]
      norm_num)]
    show tailProbability (fun u => u) (fun t _ => t) ⟨some evtParamsCex, ramp 100⟩
        (npQuantile (ramp 100) (111/200)) = Except.ok (9/20)
    simp only [tailProbability]
    rw [if_pos (show npQuantile (ramp 100) (111/200) ≤ evtParamsCex.threshold by
      simp only [evtParamsCex]
      linarith [hv.2, hthr.1])]
    congr 1
    rw [countP_gt_ramp 100 55 _ (by norm_num) (by norm_num)
      (by exact_mod_cast le_of_lt hv.1) (by push_cast; linarith [hv.2]),
      ramp_length]
    norm_num
  · have habs : (9/20 : ℚ) - (1 - 111/200) = 1/200 := by norm_num
    rw [habs, abs_of_pos (by norm_num : (0 : ℚ) < 1/200)]
    norm_num

/-- Claim C5 (amended): `EVTModel.fit` performs no validation of
`threshold_quantile` against [0.9, 0.99].  It raises eagerly only when
`np.quantile` rejects a quantile outside [0, 1], when fewer than 10 excesses
remain, or (after the excess check) for an unknown method name; any quantile
in [0, 1] with enough excesses is fitted without error. -/
theorem evt_fit_no_range_check (fMle : List ℚ → ℚ × ℚ) (d : List ℚ) (tq : ℚ)
    (h0 : 0 ≤ tq) (h1 : tq ≤ 1)
    (hex : 10 ≤ ((d.filter (fun x => decide (npQuantile d tq < x))).length)) :
    (fitEVT fMle d tq "pwm").isOk = true ∧
    (fitEVT fMle d tq "mle").isOk = true ∧
    fitEVT fMle d tq "bogus" = .error "Unknown method" := by
  have hguard : ¬ (tq < 0 ∨ 1 < tq) := by
    push_neg
    exact ⟨h0, h1⟩
  have hlen : ¬ (((d.filter (fun x => decide (npQuantile d tq < x))).map
      (fun x => x - npQuantile d tq)).length < 10) := by
    rw [List.length_map]
    omega
  refine ⟨?_, ?_, ?_⟩ <;>
    simp only [fitEVT] <;>
    rw [if_neg hguard, if_neg hlen] <;>
    rfl

lemma evtThresholdCex05_between :
    (50 : ℚ) < npQuantile (ramp 100) (1/2) ∧ npQuantile (ramp 100) (1/2) < 51 := by
  have h := npQuantile_ramp_between 100 50 (1/2) (by norm_num) (by norm_num)
    (by norm_num) (by norm_num)
  norm_num at h
  exact h

lemma evtExcessesCex05_count :
    ((ramp 100).filter (fun x => decide (npQuantile (ramp 100) (1/2) < x))).length
      = 50 := by
  have h := countP_gt_ramp 100 50 (npQuantile (ramp 100) (1/2)) (by norm_num)
    (by norm_num) (by exact_mod_cast le_of_lt evtThresholdCex05_between.1)
    (by push_cast; linarith [evtThresholdCex05_between.2])
  rw [← List.countP_eq_length_filter]
  exact h

/-- Claim C5 witness: data `[1..100]` with the out-of-[0,1]-impossible but
out-of-[0.9,0.99] quantile `0.5` has 50 excesses, so all three conclusions of
the amended theorem hold there. -/
theorem evt_fit_no_range_check_witness :
    (fitEVT (fun _ => (0, 0)) (ramp 100) (1/2) "pwm").isOk = true ∧
    (fitEVT (fun _ => (0, 0)) (ramp 100) (1/2) "mle").isOk = true ∧
    fitEVT (fun _ => (0, 0)) (ramp 100) (1/2) "bogus" = .error "Unknown method" :=
  evt_fit_no_range_check (fun _ => (0, 0)) (ramp 100) (1/2) (by norm_num)
    (by norm_num) (by rw [evtExcessesCex05_count]; norm_num)

/-- The threshold selected at quantile 0.5 on `[1..100]` (`= 50.5`). -/
def evtThresholdCex05 : ℚ := npQuantile (ramp 100) (1/2)

/-- Excesses over the 0.5-quantile threshold. -/
def evtExcessesCex05 : List ℚ :=
  ((ramp 100).filter (fun x => decide (evtThresholdCex05 < x))).map
    (fun x => x - evtThresholdCex05)

/-- The `GPDParams` produced by `fit([1..100], 0.5, "pwm")`. -/
def evtParamsCex05 : GPDParams :=
  ⟨(fitGpdPwm evtExcessesCex05).1, (fitGpdPwm evtExcessesCex05).2,
    evtThresholdCex05, evtExcessesCex05.length, 100⟩

/-- The fitted state produced by `fit([1..100], 0.5, "pwm")`. -/
def evtModelCex05 : EVTModel := ⟨some evtParamsCex05, ramp 100⟩

/-- Claim C5 counterexample: `threshold_quantile = 0.5` lies outside
[0.9, 0.99], yet `fit([1..100], 0.5, "pwm")` raises nothing and returns a
fitted model. -/
theorem evt_fit_out_of_range_accepted :
    fitEVT (fun _ => (0, 0)) (ramp 100) (1/2) "pwm" = .ok evtModelCex05 ∧
    ¬ ((9/10 : ℚ) ≤ 1/2 ∧ (1/2 : ℚ) ≤ 99/100) := by
  constructor
  · simp only [fitEVT]
    rw [if_neg (by norm_num : ¬ ((1 : ℚ)/2 < 0 ∨ (1 : ℚ) < 1/2))]
    have hEq : ((ramp 100).filter
        (fun x => decide (npQuantile (ramp 100) (1/2) < x))).map
          (fun x => x - npQuantile (ramp 100) (1/2)) = evtExcessesCex05 := rfl
    have hlen : evtExcessesCex05.length = 50 := by
      simp only [evtExcessesCex05, evtThresholdCex05, List.length_map]
      exact evtExcessesCex05_count
    rw [hEq, if_neg (show ¬ (evtExcessesCex05.length < 10) by rw [hlen]; norm_num)]
    simp [evtModelCex05, evtParamsCex05, evtThresholdCex05, ramp_length]
  · norm_num

/-! ## Hawkes process (`models/hawkes.py`) -/

/-- `HawkesParams` from `models/hawkes.py`. -/
structure HawkesParams where
  lambda0 : ℚ
  alpha : ℚ
  beta : ℚ
deriving DecidableEq, Repr

/-- `HawkesParams.is_stable`: branching ratio `alpha / beta < 1`, where the
ratio is `+inf` (hence not `< 1`) when `beta ≤ 0`. -/
def HawkesParams.is_stable (p : HawkesParams) : Bool :=
  decide (0 < p.beta) && decide (p.alpha / p.beta < 1)

/-- Rows of the branching-responsibility computation in
`HawkesProcess._fit_em`: for each event time `t_i` (in order), the list of
strictly earlier times `t_j, j < i`. -/
def emRowsAux : List ℚ → List ℚ → List (ℚ × List ℚ)
  | _, [] => []
  | acc, t :: rest => (t, acc) :: emRowsAux (acc ++ [t]) rest

/-- All `(t_i, earlier times)` rows for the E-step. -/
def emRows (ts : List ℚ) : List (ℚ × List ℚ) := emRowsAux [] ts

/-- One E-step row of `_fit_em`: kernels `alpha * exp(-beta (t_i - t_j))`
(`E` abstracts `np.exp`, positive everywhere), `denom = lambda0 + sum`, and —
normalised row-wise when `denom > 0` exactly as the source does — the pair
`(sum_j P[i,j], sum_j P[i,j] * (t_i - t_j))`. -/
def emRowStat (E : ℚ → ℚ) (lambda0 alpha beta : ℚ) (row : ℚ × List ℚ) : ℚ × ℚ :=
  let ks := row.2.map (fun tj => alpha * E (-beta * (row.1 - tj)))
  let s := ks.sum
  let w := (row.2.map (fun tj => alpha * E (-beta * (row.1 - tj)) * (row.1 - tj))).sum
  let denom := lambda0 + s
  if 0 < denom then (s / denom, w / denom) else (s, w)

/-- One EM iteration of `_fit_em` (E-step plus M-step) on the parameter
triple `(lambda0, alpha, beta)`. -/
def emStep (E : ℚ → ℚ) (ts : List ℚ) (T_max : ℚ) (s : ℚ × ℚ × ℚ) : ℚ × ℚ × ℚ :=
  let n := ts.length
  let stats := (emRows ts).map (emRowStat E s.1 s.2.1 s.2.2)
  let sumP := (stats.map Prod.fst).sum
  let wsum := (stats.map Prod.snd).sum
  let lambda0' := ((n : ℚ) - sumP) / T_max
  if 0 < sumP then
    let beta' := if 0 < wsum then sumP / wsum else s.2.2
    let alpha' := sumP / (n : ℚ) * beta'
    (lambda0', alpha', beta')
  else (lambda0', s.2.1, s.2.2)

/-- The source's convergence test: all three parameters move less than
10^-6. -/
def emConverged (s s' : ℚ × ℚ × ℚ) : Prop :=
  |s'.1 - s.1| < 1/1000000 ∧ |s'.2.1 - s.2.1| < 1/1000000 ∧
    |s'.2.2 - s.2.2| < 1/1000000

instance (s s' : ℚ × ℚ × ℚ) : Decidable (emConverged s s') := by
  unfold emConverged
  infer_instance

/-- The `for _ in range(max_iter)` loop of `_fit_em`: on convergence it
breaks BEFORE assigning, returning the previous triple. -/
def emLoop (E : ℚ → ℚ) (ts : List ℚ) (T_max : ℚ) : ℕ → (ℚ × ℚ × ℚ) → ℚ × ℚ × ℚ
  | 0, s => s
  | fuel + 1, s =>
    let s' := emStep E ts T_max s
    if emConverged s s' then s else emLoop E ts T_max fuel s'

/-- `HawkesProcess._fit_em`: initial guess
`(mean_rate/2, 3 mean_rate/10, 1)` with `mean_rate = n / T_max`, then at most
100 EM iterations. -/
def fitEm (E : ℚ → ℚ) (ts : List ℚ) (T_max : ℚ) : HawkesParams :=
  let mean_rate := (ts.length : ℚ) / T_max
  let r := emLoop E ts T_max 100 (mean_rate * (1/2), mean_rate * (3/10), 1)
  ⟨r.1, r.2.1, r.2.2⟩

/-- `HawkesProcess.fit`: sorts the event times, requires at least 3 events,
defaults `T_max` to `1.1 * max(event_times)`, then dispatches on the method
string.  `_fit_mle` runs `scipy.optimize.minimize` (L-BFGS-B) and returns
`result.x` unchecked, so it is the oracle parameter `mleOpt`. -/
def fitHawkes (mleOpt : List ℚ → ℚ → ℚ × ℚ × ℚ) (E : ℚ → ℚ)
    (event_times : List ℚ) (T_max : Option ℚ) (method : String) :
    Except String HawkesParams :=
  let ts := List.insertionSort (· ≤ ·) event_times
  if ts.length < 3 then .error "Insufficient events for Hawkes fitting"
  else
    let T := match T_max with
      | some T => T
      | none => ts.getLastD 0 * (11/10)
    match method with
    | "mle" => .ok ⟨(mleOpt ts T).1, (mleOpt ts T).2.1, (mleOpt ts T).2.2⟩
    | "em" => .ok (fitEm E ts T)
    | _ => .error "Unknown method"

/-- EM loop invariant: positive baseline, non-negative excitation, positive
decay. -/
def emInv (s : ℚ × ℚ × ℚ) : Prop := 0 < s.1 ∧ 0 ≤ s.2.1 ∧ 0 < s.2.2

lemma emRowsAux_length (l acc : List ℚ) : (emRowsAux acc l).length = l.length := by
  induction l generalizing acc with
  | nil => rfl
  | cons t rest ih => simp only [emRowsAux, List.length_cons, ih]

lemma sum_lt_length (l : List ℚ) (hne : l ≠ []) (h : ∀ x ∈ l, x < 1) :
    l.sum < (l.length : ℚ) := by
  induction l with
  | nil => exact absurd rfl hne
  | cons x rest ih =>
    rcases rest with _ | ⟨y, rest2⟩
    · simpa using h x (List.mem_cons_self _ _)
    · have h1 := h x (List.mem_cons_self _ _)
      have h2 := ih (by simp) (fun z hz => h z (List.mem_cons_of_mem _ hz))
      simp only [List.sum_cons, List.length_cons] at h2 ⊢
      push_cast
      push_cast at h2
      linarith

lemma emRowStat_fst_bounds (E : ℚ → ℚ) (hE : ∀ x, 0 < E x)
    (lambda0 alpha beta : ℚ) (hl : 0 < lambda0) (ha : 0 ≤ alpha)
    (row : ℚ × List ℚ) :
    0 ≤ (emRowStat E lambda0 alpha beta row).1 ∧
      (emRowStat E lambda0 alpha beta row).1 < 1 := by
  simp only [emRowStat]
  have hks : ∀ x ∈ row.2.map (fun tj => alpha * E (-beta * (row.1 - tj))), 0 ≤ x := by
    intro x hx
    obtain ⟨tj, _, rfl⟩ := List.mem_map.mp hx
    exact mul_nonneg ha (le_of_lt (hE _))
  have hsum : 0 ≤ (row.2.map (fun tj => alpha * E (-beta * (row.1 - tj)))).sum :=
    List.sum_nonneg hks
  have hden : 0 < lambda0 + (row.2.map (fun tj => alpha * E (-beta * (row.1 - tj)))).sum := by
    linarith
  rw [if_pos hden]
  constructor
  · exact div_nonneg hsum (le_of_lt hden)
  · rw [div_lt_one hden]
    linarith

lemma emRowStat_fst_pos (E : ℚ → ℚ) (hE : ∀ x, 0 < E x)
    (lambda0 alpha beta : ℚ) (hl : 0 < lambda0) (ha : 0 < alpha)
    (t : ℚ) (prev : List ℚ) (hprev : prev ≠ []) :
    0 < (emRowStat E lambda0 alpha beta (t, prev)).1 := by
  simp only [emRowStat]
  have hks : ∀ x ∈ prev.map (fun tj => alpha * E (-beta * (t - tj))), 0 ≤ x := by
    intro x hx
    obtain ⟨tj, _, rfl⟩ := List.mem_map.mp hx
    exact mul_nonneg (le_of_lt ha) (le_of_lt (hE _))
  have hsum0 : 0 ≤ (prev.map (fun tj => alpha * E (-beta * (t - tj)))).sum :=
    List.sum_nonneg hks
  obtain ⟨t0, rest, rfl⟩ : ∃ t0 rest, prev = t0 :: rest := by
    cases prev with
    | nil => exact absurd rfl hprev
    | cons a b => exact ⟨a, b, rfl⟩
  have hmem : alpha * E (-beta * (t - t0)) ∈
      (t0 :: rest).map (fun tj => alpha * E (-beta * (t - tj))) := by
    simp
  have hpos : 0 < alpha * E (-beta * (t - t0)) := mul_pos ha (hE _)
  have hsum : 0 < ((t0 :: rest).map (fun tj => alpha * E (-beta * (t - tj)))).sum :=
    lt_of_lt_of_le hpos (List.single_le_sum hks _ hmem)
  have hden : 0 < lambda0 + ((t0 :: rest).map (fun tj => alpha * E (-beta * (t - tj)))).sum := by
    linarith
  rw [if_pos hden]
  exact div_pos hsum hden

lemma emStep_sumP_bounds (E : ℚ → ℚ) (hE : ∀ x, 0 < E x) (ts : List ℚ)
    (hn : 1 ≤ ts.length) (lambda0 alpha beta : ℚ) (hl : 0 < lambda0)
    (ha : 0 ≤ alpha) :
    0 ≤ (((emRows ts).map (emRowStat E lambda0 alpha beta)).map Prod.fst).sum ∧
      (((emRows ts).map (emRowStat E lambda0 alpha beta)).map Prod.fst).sum <
        (ts.length : ℚ) := by
  have hlen : (((emRows ts).map (emRowStat E lambda0 alpha beta)).map Prod.fst).length
      = ts.length := by
    simp only [List.length_map, emRows, emRowsAux_length]
  have hmem : ∀ x ∈ ((emRows ts).map (emRowStat E lambda0 alpha beta)).map Prod.fst,
      0 ≤ x ∧ x < 1 := by
    intro x hx
    obtain ⟨st, hst, rfl⟩ := List.mem_map.mp hx
    obtain ⟨row, _, rfl⟩ := List.mem_map.mp hst
    exact emRowStat_fst_bounds E hE lambda0 alpha beta hl ha row
  constructor
  · exact List.sum_nonneg (fun x hx => (hmem x hx).1)
  · rw [← hlen]
    apply sum_lt_length
    · intro hempty
      rw [hempty] at hlen
      simp at hlen
      omega
    · exact fun x hx => (hmem x hx).2

lemma emStep_sumP_pos (E : ℚ → ℚ) (hE : ∀ x, 0 < E x)
    (t0 t1 : ℚ) (rest : List ℚ) (lambda0 alpha beta : ℚ)
    (hl : 0 < lambda0) (ha : 0 < alpha) :
    0 < (((emRows (t0 :: t1 :: rest)).map
        (emRowStat E lambda0 alpha beta)).map Prod.fst).sum := by
  have hnn : ∀ x ∈ ((emRows (t0 :: t1 :: rest)).map
      (emRowStat E lambda0 alpha beta)).map Prod.fst, 0 ≤ x := by
    intro x hx
    obtain ⟨st, hst, rfl⟩ := List.mem_map.mp hx
    obtain ⟨row, _, rfl⟩ := List.mem_map.mp hst
    exact (emRowStat_fst_bounds E hE lambda0 alpha beta hl (le_of_lt ha) row).1
  have hrow : ((t1, [t0]) : ℚ × List ℚ) ∈ emRows (t0 :: t1 :: rest) := by
    simp only [emRows, emRowsAux, List.nil_append]
    exact List.mem_cons_of_mem _ (List.mem_cons_self _ _)
  have hmem : (emRowStat E lambda0 alpha beta (t1, [t0])).1 ∈
      ((emRows (t0 :: t1 :: rest)).map (emRowStat E lambda0 alpha beta)).map Prod.fst :=
    List.mem_map_of_mem _ (List.mem_map_of_mem _ hrow)
  exact lt_of_lt_of_le
    (emRowStat_fst_pos E hE lambda0 alpha beta hl ha t1 [t0] (by simp))
    (List.single_le_sum hnn _ hmem)

lemma emStep_good (E : ℚ → ℚ) (hE : ∀ x, 0 < E x) (ts : List ℚ) (T : ℚ)
    (hT : 0 < T) (t0 t1 : ℚ) (rest : List ℚ) (hts : ts = t0 :: t1 :: rest)
    (s : ℚ × ℚ × ℚ) (hInv : emInv s) :
    emInv (emStep E ts T s) ∧ (emStep E ts T s).2.1 < (emStep E ts T s).2.2 := by
  obtain ⟨hl, ha, hb⟩ := hInv
  have hn1 : 1 ≤ ts.length := by rw [hts]; simp
  have hn0 : (0 : ℚ) < (ts.length : ℚ) := by exact_mod_cast hn1
  have hbounds := emStep_sumP_bounds E hE ts hn1 s.1 s.2.1 s.2.2 hl ha
  have hl' : 0 < ((ts.length : ℚ) -
      (((emRows ts).map (emRowStat E s.1 s.2.1 s.2.2)).map Prod.fst).sum) / T :=
    div_pos (by linarith [hbounds.2]) hT
  by_cases hp : 0 < (((emRows ts).map (emRowStat E s.1 s.2.1 s.2.2)).map Prod.fst).sum
  · by_cases hw : 0 < (((emRows ts).map (emRowStat E s.1 s.2.1 s.2.2)).map Prod.snd).sum
    · have hstep : emStep E ts T s =
          (((ts.length : ℚ) -
            (((emRows ts).map (emRowStat E s.1 s.2.1 s.2.2)).map Prod.fst).sum) / T,
           (((emRows ts).map (emRowStat E s.1 s.2.1 s.2.2)).map Prod.fst).sum /
              (ts.length : ℚ) *
            ((((emRows ts).map (emRowStat E s.1 s.2.1 s.2.2)).map Prod.fst).sum /
              (((emRows ts).map (emRowStat E s.1 s.2.1 s.2.2)).map Prod.snd).sum),
           (((emRows ts).map (emRowStat E s.1 s.2.1 s.2.2)).map Prod.fst).sum /
             (((emRows ts).map (emRowStat E s.1 s.2.1 s.2.2)).map Prod.snd).sum) := by
        simp only [emStep]
        rw [if_pos hp, if_pos hw]
      rw [hstep]
      have hbpos : 0 < (((emRows ts).map (emRowStat E s.1 s.2.1 s.2.2)).map Prod.fst).sum /
          (((emRows ts).map (emRowStat E s.1 s.2.1 s.2.2)).map Prod.snd).sum :=
        div_pos hp hw
      have hfrac : (((emRows ts).map (emRowStat E s.1 s.2.1 s.2.2)).map Prod.fst).sum /
          (ts.length : ℚ) < 1 := (div_lt_one hn0).mpr hbounds.2
      have hfrac0 : 0 ≤ (((emRows ts).map (emRowStat E s.1 s.2.1 s.2.2)).map Prod.fst).sum /
          (ts.length : ℚ) := div_nonneg hbounds.1 (le_of_lt hn0)
      refine ⟨⟨hl', mul_nonneg hfrac0 (le_of_lt hbpos), hbpos⟩, ?_⟩
      calc _ < 1 * ((((emRows ts).map (emRowStat E s.1 s.2.1 s.2.2)).map Prod.fst).sum /
            (((emRows ts).map (emRowStat E s.1 s.2.1 s.2.2)).map Prod.snd).sum) :=
          mul_lt_mul_of_pos_right hfrac hbpos
        _ = _ := one_mul _
    · have hstep : emStep E ts T s =
          (((ts.length : ℚ) -
            (((emRows ts).map (emRowStat E s.1 s.2.1 s.2.2)).map Prod.fst).sum) / T,
           (((emRows ts).map (emRowStat E s.1 s.2.1 s.2.2)).map Prod.fst).sum /
              (ts.length : ℚ) * s.2.2, s.2.2) := by
        simp only [emStep]
        rw [if_pos hp, if_neg hw]
      rw [hstep]
      have hfrac : (((emRows ts).map (emRowStat E s.1 s.2.1 s.2.2)).map Prod.fst).sum /
          (ts.length : ℚ) < 1 := (div_lt_one hn0).mpr hbounds.2
      have hfrac0 : 0 ≤ (((emRows ts).map (emRowStat E s.1 s.2.1 s.2.2)).map Prod.fst).sum /
          (ts.length : ℚ) := div_nonneg hbounds.1 (le_of_lt hn0)
      refine ⟨⟨hl', mul_nonneg hfrac0 (le_of_lt hb), hb⟩, ?_⟩
      calc _ < 1 * s.2.2 := mul_lt_mul_of_pos_right hfrac hb
        _ = s.2.2 := one_mul _
  · have hstep : emStep E ts T s =
        (((ts.length : ℚ) -
          (((emRows ts).map (emRowStat E s.1 s.2.1 s.2.2)).map Prod.fst).sum) / T,
         s.2.1, s.2.2) := by
      simp only [emStep]
      rw [if_neg hp]
    rw [hstep]
    have ha0 : s.2.1 = 0 := by
      by_contra hne
      have hpos : 0 < s.2.1 := lt_of_le_of_ne ha (Ne.symm hne)
      rw [hts] at hp
      exact hp (emStep_sumP_pos E hE t0 t1 rest s.1 s.2.1 s.2.2 hl hpos)
    refine ⟨⟨hl', ha, hb⟩, ?_⟩
    show s.2.1 < s.2.2
    rw [ha0]
    exact hb

lemma emLoop_good (E : ℚ → ℚ) (hE : ∀ x, 0 < E x) (ts : List ℚ) (T : ℚ)
    (hT : 0 < T) (t0 t1 : ℚ) (rest : List ℚ) (hts : ts = t0 :: t1 :: rest) :
    ∀ (fuel : ℕ) (s : ℚ × ℚ × ℚ), emInv s → 1 ≤ fuel →
      (emInv (emLoop E ts T fuel s) ∧
        (emLoop E ts T fuel s).2.1 < (emLoop E ts T fuel s).2.2) ∨
      (emLoop E ts T fuel s = s ∧ emConverged s (emStep E ts T s)) := by
  intro fuel
  induction fuel with
  | zero => intro s _ h; omega
  | succ f ih =>
    intro s hInv _
    have hgood := emStep_good E hE ts T hT t0 t1 rest hts s hInv
    simp only [emLoop]
    by_cases hc : emConverged s (emStep E ts T s)
    · rw [if_pos hc]
      exact Or.inr ⟨rfl, hc⟩
    · rw [if_neg hc]
      rcases Nat.eq_zero_or_pos f with rfl | hf
      · simp only [emLoop]
        exact Or.inl hgood
      · rcases ih (emStep E ts T s) hgood.1 hf with h | h
        · exact Or.inl h
        · rw [h.1]
          exact Or.inl hgood

lemma em_first_conv_exclusion (E : ℚ → ℚ) (hE : ∀ x, 0 < E x) (ts : List ℚ)
    (T : ℚ) (hT : 0 < T) (t0 t1 : ℚ) (rest : List ℚ) (hts : ts = t0 :: t1 :: rest)
    (hbad : 1 ≤ (ts.length : ℚ) / T * (3/10))
    (hconv : emConverged
      ((ts.length : ℚ) / T * (1/2), (ts.length : ℚ) / T * (3/10), 1)
      (emStep E ts T
        ((ts.length : ℚ) / T * (1/2), (ts.length : ℚ) / T * (3/10), 1))) :
    False := by
  have hn1 : 1 ≤ ts.length := by rw [hts]; simp
  have hN : (0 : ℚ) < (ts.length : ℚ) := by exact_mod_cast hn1
  have hl0 : (0 : ℚ) < (ts.length : ℚ) / T * (1/2) := by positivity
  have ha0 : (0 : ℚ) < (ts.length : ℚ) / T * (3/10) := by linarith
  have hbounds := emStep_sumP_bounds E hE ts hn1
    ((ts.length : ℚ) / T * (1/2)) ((ts.length : ℚ) / T * (3/10)) 1 hl0 (le_of_lt ha0)
  have hsp : 0 < (((emRows ts).map (emRowStat E ((ts.length : ℚ) / T * (1/2))
      ((ts.length : ℚ) / T * (3/10)) 1)).map Prod.fst).sum := by
    rw [hts]
    rw [hts] at hl0 ha0
    exact emStep_sumP_pos E hE t0 t1 rest _ _ 1 hl0 ha0
  -- name the two sums
  set SP := (((emRows ts).map (emRowStat E ((ts.length : ℚ) / T * (1/2))
      ((ts.length : ℚ) / T * (3/10)) 1)).map Prod.fst).sum with hSP
  set W := (((emRows ts).map (emRowStat E ((ts.length : ℚ) / T * (1/2))
      ((ts.length : ℚ) / T * (3/10)) 1)).map Prod.snd).sum with hW
  -- the step in both weighted-sum cases has the same shape with beta' = b
  have hmain : ∀ b : ℚ, 0 < b →
      |((ts.length : ℚ) - SP) / T - (ts.length : ℚ) / T * (1/2)| < 1/1000000 →
      |SP / (ts.length : ℚ) * b - (ts.length : ℚ) / T * (3/10)| < 1/1000000 →
      |b - 1| < 1/1000000 → False := by
    intro b hb h1 h2 h3
    have key : ((ts.length : ℚ) - SP) / T - (ts.length : ℚ) / T * (1/2) =
        ((ts.length : ℚ) / 2 - SP) / T := by
      field_simp
      ring
    rw [key, abs_div, abs_of_pos hT] at h1
    have e1 : |(ts.length : ℚ) / 2 - SP| < 1/1000000 * T := (div_lt_iff₀ hT).mp h1
    have e1' : SP < (ts.length : ℚ) / 2 + 1/1000000 * T := by
      have := (abs_lt.mp e1).1
      linarith
    have e2 : b < 1 + 1/1000000 := by
      have := (abs_lt.mp h3).2
      linarith
    have e3 : 1 - 1/1000000 < SP / (ts.length : ℚ) * b := by
      have := (abs_lt.mp h2).1
      linarith
    have e4 : 0 ≤ SP / (ts.length : ℚ) := div_nonneg (le_of_lt hsp) (le_of_lt hN)
    have e5 : SP / (ts.length : ℚ) * b ≤ SP / (ts.length : ℚ) * (1 + 1/1000000) :=
      mul_le_mul_of_nonneg_left (le_of_lt e2) e4
    have e6 : T ≤ 3 * (ts.length : ℚ) / 10 := by
      have h6 : T * 1 ≤ T * ((ts.length : ℚ) / T * (3/10)) :=
        mul_le_mul_of_nonneg_left hbad (le_of_lt hT)
      have h6' : T * ((ts.length : ℚ) / T * (3/10)) = 3 * (ts.length : ℚ) / 10 := by
        field_simp
        ring
      linarith [h6' ▸ h6]
    have e7 : SP < (ts.length : ℚ) * (1/2 + 3/10000000) := by
      have : 1/1000000 * T ≤ 1/1000000 * (3 * (ts.length : ℚ) / 10) := by linarith
      linarith
    have e8 : SP / (ts.length : ℚ) < 1/2 + 3/10000000 := (div_lt_iff₀ hN).mpr (by linarith)
    have e9 : SP / (ts.length : ℚ) * (1 + 1/1000000) <
        (1/2 + 3/10000000) * (1 + 1/1000000) :=
      mul_lt_mul_of_pos_right e8 (by norm_num)
    have e10 : ((1:ℚ)/2 + 3/10000000) * (1 + 1/1000000) < 1 - 1/1000000 := by norm_num
    linarith
  by_cases hw : 0 < W
  · have hstep : emStep E ts T
        ((ts.length : ℚ) / T * (1/2), (ts.length : ℚ) / T * (3/10), 1) =
        (((ts.length : ℚ) - SP) / T, SP / (ts.length : ℚ) * (SP / W), SP / W) := by
      simp only [emStep]
      rw [if_pos hsp, if_pos hw]
    rw [hstep] at hconv
    obtain ⟨h1, h2, h3⟩ := hconv
    exact hmain (SP / W) (div_pos hsp hw) h1 h2 h3
  · have hstep : emStep E ts T
        ((ts.length : ℚ) / T * (1/2), (ts.length : ℚ) / T * (3/10), 1) =
        (((ts.length : ℚ) - SP) / T, SP / (ts.length : ℚ) * 1, 1) := by
      simp only [emStep]
      rw [if_pos hsp, if_neg hw]
    rw [hstep] at hconv
    obtain ⟨h1, h2, h3⟩ := hconv
    exact hmain 1 (by norm_num) h1 h2 h3

lemma is_stable_of (p : HawkesParams) (h1 : p.alpha < p.beta) (h2 : 0 < p.beta) :
    p.is_stable = true := by
  simp only [HawkesParams.is_stable, Bool.and_eq_true, decide_eq_true_eq]
  exact ⟨h2, (div_lt_one h2).mpr h1⟩

/-- Claim C2 (amended): under method `em`, `HawkesProcess.fit` with at least
3 events and a positive window always returns parameters with
`alpha < beta` (positive `beta`), hence `is_stable = true` — the EM update
`alpha = (sum_P / n) * beta` with row-normalised responsibilities forces the
branching ratio below 1, including when the loop breaks on first-iteration
convergence.  Under method `mle`, however, `fit` applies no rejection: it
returns the optimizer output verbatim (see the counterexample theorem). -/
theorem hawkes_fit_em_stable (mleOpt : List ℚ → ℚ → ℚ × ℚ × ℚ)
    (E : ℚ → ℚ) (hE : ∀ x, 0 < E x) (event_times : List ℚ) (T : ℚ)
    (hT : 0 < T) (hn : 3 ≤ event_times.length) :
    fitHawkes mleOpt E event_times (some T) "em" =
      .ok (fitEm E (List.insertionSort (· ≤ ·) event_times) T) ∧
    (fitEm E (List.insertionSort (· ≤ ·) event_times) T).alpha <
      (fitEm E (List.insertionSort (· ≤ ·) event_times) T).beta ∧
    0 < (fitEm E (List.insertionSort (· ≤ ·) event_times) T).beta ∧
    (fitEm E (List.insertionSort (· ≤ ·) event_times) T).is_stable = true := by
  have hlen : (List.insertionSort (· ≤ ·) event_times).length = event_times.length :=
    List.length_insertionSort _ _
  have hn3 : 3 ≤ (List.insertionSort (· ≤ ·) event_times).length := by omega
  have hfit : fitHawkes mleOpt E event_times (some T) "em" =
      .ok (fitEm E (List.insertionSort (· ≤ ·) event_times) T) := by
    simp only [fitHawkes]
    rw [if_neg (by omega)]
  refine ⟨hfit, ?_⟩
  set ts := List.insertionSort (· ≤ ·) event_times with htsdef
  have hshape3 : ∀ (l : List ℚ), 3 ≤ l.length → ∃ t0 t1 rest, l = t0 :: t1 :: rest := by
    intro l hl
    rcases l with _ | ⟨x, l1⟩
    · simp at hl
    · rcases l1 with _ | ⟨y, l2⟩
      · simp at hl
      · exact ⟨x, y, l2, rfl⟩
  obtain ⟨t0, t1, rest, hshape⟩ := hshape3 ts hn3
  have hN : (0 : ℚ) < (ts.length : ℚ) := by
    have : 0 < ts.length := by omega
    exact_mod_cast this
  have hInv0 : emInv ((ts.length : ℚ) / T * (1/2), (ts.length : ℚ) / T * (3/10), 1) := by
    refine ⟨by positivity, by positivity, by norm_num⟩
  have hr : fitEm E ts T =
      ⟨(emLoop E ts T 100 ((ts.length : ℚ) / T * (1/2), (ts.length : ℚ) / T * (3/10), 1)).1,
       (emLoop E ts T 100 ((ts.length : ℚ) / T * (1/2), (ts.length : ℚ) / T * (3/10), 1)).2.1,
       (emLoop E ts T 100 ((ts.length : ℚ) / T * (1/2), (ts.length : ℚ) / T * (3/10), 1)).2.2⟩ := by
    simp only [fitEm]
  rcases emLoop_good E hE ts T hT t0 t1 rest hshape 100
      ((ts.length : ℚ) / T * (1/2), (ts.length : ℚ) / T * (3/10), 1) hInv0
      (by norm_num) with ⟨hi, hab⟩ | ⟨heq, hconv⟩
  · rw [hr]
    refine ⟨hab, hi.2.2, ?_⟩
    exact is_stable_of _ hab hi.2.2
  · by_cases hbad : 1 ≤ (ts.length : ℚ) / T * (3/10)
    · exact absurd hconv
        (fun hc => em_first_conv_exclusion E hE ts T hT t0 t1 rest hshape hbad hc)
    · push_neg at hbad
      rw [hr, heq]
      refine ⟨hbad, by norm_num, ?_⟩
      exact is_stable_of _ hbad (by norm_num)

/-- Claim C2 witness: event times `[0, 1, 2]`, `T_max = 10`, and a positive
kernel function. -/
theorem hawkes_fit_em_stable_witness :
    fitHawkes (fun _ _ => (0, 0, 0)) (fun _ => 1) [0, 1, 2] (some 10) "em" =
      .ok (fitEm (fun _ => 1) (List.insertionSort (· ≤ ·) [0, 1, 2]) 10) ∧
    (fitEm (fun _ => 1) (List.insertionSort (· ≤ ·) [0, 1, 2]) 10).alpha <
      (fitEm (fun _ => 1) (List.insertionSort (· ≤ ·) [0, 1, 2]) 10).beta ∧
    0 < (fitEm (fun _ => 1) (List.insertionSort (· ≤ ·) [0, 1, 2]) 10).beta ∧
    (fitEm (fun _ => 1) (List.insertionSort (· ≤ ·) [0, 1, 2]) 10).is_stable = true :=
  hawkes_fit_em_stable (fun _ _ => (0, 0, 0)) (fun _ => 1) (fun _ => by norm_num)
    [0, 1, 2] 10 (by norm_num) (by norm_num)

/-- Claim C2 counterexample: `fit` applies no stability rejection after
`_fit_mle` — it returns `result.x` verbatim.  With the optimizer returning
`(lambda0, alpha, beta) = (1, 2, 1)` (realisable: L-BFGS-B stalls at its
initial point when the initial guess lies on the `1e10` penalty plateau,
e.g. three events with a small `T_max` make `alpha_init = 0.3·n/T_max ≥
beta_init = 1`), `fit` under method `mle` returns parameters with
`alpha = 2 ≥ beta = 1` and `is_stable = false`: an unstable parameter set
leaks out of `fit`. -/
theorem hawkes_fit_mle_leaks_unstable :
    fitHawkes (fun _ _ => (1, 2, 1)) (fun _ => 1) [0, 1, 2] (some 10) "mle" =
      .ok ⟨1, 2, 1⟩ ∧
    ¬ ((2 : ℚ) < (1 : ℚ)) ∧
    (HawkesParams.mk 1 2 1).is_stable = false := by
  refine ⟨?_, by norm_num, ?_⟩
  · simp only [fitHawkes]
    rw [if_neg (by decide)]
  · simp only [HawkesParams.is_stable]
    norm_num

/-! ## Hazard calibrator (`calibration/hazard.py`) -/

/-- Calibrator configuration (`HazardCalibrator.__init__`). -/
structure CalibConfig where
  trigger_threshold : ℚ := 97/100
  trigger_duration_hours : ℚ := 24
  seed : ℕ := 42
deriving DecidableEq, Repr

/-- One simulated depeg event inside a Monte-Carlo path: its Hawkes arrival
time, its EVT magnitude draw (bps) and its drawn duration (hours). -/
structure SimEvent where
  time : ℚ
  magnitude : ℚ
  duration : ℚ
deriving DecidableEq, Repr

/-- The stochastic sub-routines of `_simulate_hazards`, as explicit
deterministic oracles.  `hawkesSim p T s` is `HawkesProcess.simulate(T, s)`
(Ogata thinning, driven by its own seeded generator); `evtSim p s` is the one
value of `EVTModel.simulate(1, s)`; `intDraw s k` is the k-th
`rng.integers(0, 2**31)` draw of `np.random.default_rng(s)`; `expDraw s k`
is the k-th draw as a standard-exponential variate (numpy's
`rng.exponential(mean)` equals `mean` times a standard draw).  A single
counter `k` models the shared generator state advancing on every draw. -/
structure SimOracles where
  hawkesSim : HawkesParams → ℚ → ℕ → List ℚ
  evtSim : GPDParams → ℕ → ℚ
  intDraw : ℕ → ℕ → ℕ
  expDraw : ℕ → ℕ → ℚ

/-- The per-event body of the `_simulate_hazards` path loop: one existence
draw, one magnitude draw, then — only when the implied price breaches the
trigger threshold — one duration draw with mean `24 * (1 + m/500)` hours.
Returns the events together with the advanced draw counter. -/
def sampleEvents (O : SimOracles) (cfg : CalibConfig) (evt : GPDParams)
    (s : ℕ) : List ℚ → ℕ → List SimEvent × ℕ
  | [], c => ([], c)
  | t :: rest, c =>
    let m := O.evtSim evt (O.intDraw s (c + 1))
    if 1 - m / 10000 < cfg.trigger_threshold then
      let duration := 24 * (1 + m / 500) * O.expDraw s (c + 2)
      let r := sampleEvents O cfg evt s rest (c + 3)
      (⟨t, m, duration⟩ :: r.1, r.2)
    else
      let r := sampleEvents O cfg evt s rest (c + 2)
      (⟨t, m, 0⟩ :: r.1, r.2)

/-- One Monte-Carlo path: a Hawkes seed draw, the simulated arrival times,
then the per-event magnitude/duration draws. -/
def genOnePath (O : SimOracles) (cfg : CalibConfig) (evt : GPDParams)
    (hawkes : HawkesParams) (maxT : ℚ) (s c : ℕ) : List SimEvent × ℕ :=
  sampleEvents O cfg evt s (O.hawkesSim hawkes maxT (O.intDraw s c)) (c + 1)

/-- `n_simulations` sequential paths threading the draw counter. -/
def genPaths (O : SimOracles) (cfg : CalibConfig) (evt : GPDParams)
    (hawkes : HawkesParams) (maxT : ℚ) (s : ℕ) : ℕ → ℕ → List (List SimEvent)
  | 0, _ => []
  | n + 1, c =>
    (genOnePath O cfg evt hawkes maxT s c).1 ::
      genPaths O cfg evt hawkes maxT s n (genOnePath O cfg evt hawkes maxT s c).2

/-- Whether one simulated event meets both trigger conditions: price below
the threshold and duration at least the dwell. -/
def eventTriggers (cfg : CalibConfig) (e : SimEvent) : Bool :=
  decide (1 - e.magnitude / 10000 < cfg.trigger_threshold) &&
    decide (cfg.trigger_duration_hours ≤ e.duration)

/-- The `triggered[tenor]` flag after the event loop: marked when some event
triggers with arrival time at most the tenor. -/
def pathTriggered (cfg : CalibConfig) (tenor : ℤ) (path : List SimEvent) : Bool :=
  path.foldl
    (fun acc e =>
      if eventTriggers cfg e && decide (e.time ≤ (tenor : ℚ)) then true else acc)
    false

/-- Python `max` over the tenor list. -/
def listMaxInt (l : List ℤ) : ℤ := l.foldl max (l.headD 0)

/-- The hard-coded conservative default trigger probabilities used when a
regime has no fitted models (`_simulate_hazards`, lines 253-260).  The
source dictionary has exactly the keys 7, 30, 90; other tenors are
modelled as 0 (the source would raise `KeyError` there). -/
def baseRates (regime : RegimeKind) : ℤ → ℚ
  | 7 => match regime with
    | .CALM => 1/10000
    | .VOLATILE => 5/10000
    | .CRISIS => 2/1000
  | 30 => match regime with
    | .CALM => 5/10000
    | .VOLATILE => 25/10000
    | .CRISIS => 1/100
  | 90 => match regime with
    | .CALM => 15/10000
    | .VOLATILE => 8/1000
    | .CRISIS => 35/1000
  | _ => 0

/-- `HazardCalibrator._simulate_hazards`: defaults when either model is
absent, otherwise the Monte-Carlo trigger frequencies with the generator
seeded by `seed + regime.value`. -/
def simulateHazards (O : SimOracles) (cfg : CalibConfig)
    (models : Option GPDParams × Option HawkesParams) (regime : RegimeKind)
    (tenors : List ℤ) (n_simulations : ℕ) : ℤ → ℚ :=
  match models with
  | (some evt, some hawkes) =>
    fun t =>
      ((genPaths O cfg evt hawkes ((listMaxInt tenors : ℤ) : ℚ)
          (cfg.seed + regime.val) n_simulations 0).countP
        (pathTriggered cfg t) : ℚ) / (n_simulations : ℚ)
  | _ => baseRates regime

/-- `_build_curve`'s `prob_to_hazard`: cap 10 for `p ≥ 1`, floor 0 for
`p ≤ 0`, else `-ln(1 - p)` — here the abstract transform `L`. -/
def probToHazard (L : ℚ → ℚ) (p : ℚ) : ℚ :=
  if 1 ≤ p then 10 else if p ≤ 0 then 0 else L p

/-- `HazardCalibrator._build_curve` over the abstract hazard transform `L`
(standing for `p ↦ -ln(1 - p)`): scale by 10^18 and truncate; the tail slope
is `((H(90) - H(30)) / 60) * 1.1` scaled and truncated.  `n_simulations` is
`len(hazards)`, the number of tenor keys — a source quirk kept as is. -/
def buildCurve (L : ℚ → ℚ) (regime : RegimeKind) (tenors : List ℤ)
    (hazards : ℤ → ℚ) : HazardCurve :=
  { regime := regime
    H_7d := pyInt (probToHazard L (hazards 7) * 10^18)
    H_30d := pyInt (probToHazard L (hazards 30) * 10^18)
    H_90d := pyInt (probToHazard L (hazards 90) * 10^18)
    tail_slope := pyInt ((probToHazard L (hazards 90) - probToHazard L (hazards 30))
      / 60 * (11/10) * 10^18)
    n_simulations := tenors.length }

/-- `HazardCalibrator.calibrate` (fitted state assumed; the unfitted guard
raises before any of this).  Per regime: simulate, build, assemble the
`RegimeCurveSet`. -/
def calibrate (L : ℚ → ℚ) (O : SimOracles) (cfg : CalibConfig)
    (models : RegimeKind → Option GPDParams × Option HawkesParams)
    (tenors : List ℤ) (n_simulations : ℕ) (peril_id : String) : RegimeCurveSet :=
  { peril_id := peril_id
    calm := buildCurve L .CALM tenors
      (simulateHazards O cfg (models .CALM) .CALM tenors n_simulations)
    volatile := buildCurve L .VOLATILE tenors
      (simulateHazards O cfg (models .VOLATILE) .VOLATILE tenors n_simulations)
    crisis := buildCurve L .CRISIS tenors
      (simulateHazards O cfg (models .CRISIS) .CRISIS tenors n_simulations) }

/-- `_build_curve` with the concrete real transform `-Real.log (1 - p)`,
used where a claim depends on actual values of the logarithm. -/
noncomputable def probToHazardR (p : ℚ) : ℝ :=
  if 1 ≤ p then 10 else if p ≤ 0 then 0 else -Real.log (1 - (p : ℝ))

/-- `HazardCalibrator._build_curve` over `ℝ` with the real logarithm. -/
noncomputable def buildCurveR (regime : RegimeKind) (tenors : List ℤ)
    (hazards : ℤ → ℚ) : HazardCurve :=
  { regime := regime
    H_7d := pyIntR (probToHazardR (hazards 7) * 10^18)
    H_30d := pyIntR (probToHazardR (hazards 30) * 10^18)
    H_90d := pyIntR (probToHazardR (hazards 90) * 10^18)
    tail_slope := pyIntR ((probToHazardR (hazards 90) - probToHazardR (hazards 30))
      / 60 * (11/10) * 10^18)
    n_simulations := tenors.length }

/-- `HazardCalibrator.calibrate` with the real-log curve builder. -/
noncomputable def calibrateR (O : SimOracles) (cfg : CalibConfig)
    (models : RegimeKind → Option GPDParams × Option HawkesParams)
    (tenors : List ℤ) (n_simulations : ℕ) (peril_id : String) : RegimeCurveSet :=
  { peril_id := peril_id
    calm := buildCurveR .CALM tenors
      (simulateHazards O cfg (models .CALM) .CALM tenors n_simulations)
    volatile := buildCurveR .VOLATILE tenors
      (simulateHazards O cfg (models .VOLATILE) .VOLATILE tenors n_simulations)
    crisis := buildCurveR .CRISIS tenors
      (simulateHazards O cfg (models .CRISIS) .CRISIS tenors n_simulations) }

/-- The monotonicity/tail-slope property the claims assert of every
calibrated curve. -/
def curveMonotoneOK (c : HazardCurve) : Prop :=
  0 ≤ c.H_7d ∧ c.H_7d ≤ c.H_30d ∧ c.H_30d ≤ c.H_90d ∧ 0 ≤ c.tail_slope

/-- `HazardCalibrator.fit` restricted to one regime: the masked magnitude
and event-time subsets, the under-5 skip, and the try/except around
`EVTModel.fit(…, 0.9)` and `HawkesProcess.fit(…, T_max=observation days)`
(both with their default method `mle`; the EVT/Hawkes optimizers are the
oracle parameters). -/
def fitCalibratorRegime (fitMleEVT : List ℚ → ℚ × ℚ)
    (mleHawkes : List ℚ → ℚ → ℚ × ℚ × ℚ) (E : ℚ → ℚ)
    (depeg_magnitudes event_times : List ℚ) (regimes : List ℕ)
    (observation_period_days : ℚ) (regime : RegimeKind) :
    Option GPDParams × Option HawkesParams :=
  if regimes.countP (fun r => decide (r = regime.val)) < 5 then (none, none)
  else
    let mags := ((depeg_magnitudes.zip regimes).filter
      (fun p => decide (p.2 = regime.val))).map Prod.fst
    let times := ((event_times.zip regimes).filter
      (fun p => decide (p.2 = regime.val))).map Prod.fst
    let evt := match fitEVT fitMleEVT mags (9/10) "mle" with
      | .ok m => m.gpd_params
      | .error _ => none
    let hawkes := match fitHawkes mleHawkes E times (some observation_period_days) "mle" with
      | .ok p => some p
      | .error _ => none
    (evt, hawkes)

lemma simulateHazards_default (O : SimOracles) (cfg : CalibConfig)
    (mp : Option GPDParams × Option HawkesParams) (regime : RegimeKind)
    (tenors : List ℤ) (n : ℕ) (h : mp.1 = none ∨ mp.2 = none) :
    simulateHazards O cfg mp regime tenors n = baseRates regime := by
  obtain ⟨me, mh⟩ := mp
  rcases h with h | h
  · simp only at h
    subst h
    cases mh <;> rfl
  · simp only at h
    subst h
    cases me <;> rfl

/-- Claim C7: whenever a regime's masked subset has fewer than 5 entries, or
its EVT fit raises (fewer than 10 excesses at the 0.9 threshold quantile) or
its Hawkes fit raises (fewer than 3 events), model fitting for that regime
is skipped and `_simulate_hazards` returns exactly the hard-coded defaults —
whose nine values are pinned below. -/
theorem calibrator_defaults_on_insufficient_data
    (fitMleEVT : List ℚ → ℚ × ℚ) (mleHawkes : List ℚ → ℚ → ℚ × ℚ × ℚ)
    (E : ℚ → ℚ) (O : SimOracles) (cfg : CalibConfig)
    (depeg_magnitudes event_times : List ℚ) (regimes : List ℕ) (obs : ℚ)
    (regime : RegimeKind) (tenors : List ℤ) (n_sims : ℕ)
    (h : regimes.countP (fun r => decide (r = regime.val)) < 5 ∨
      ((((depeg_magnitudes.zip regimes).filter
          (fun p => decide (p.2 = regime.val))).map Prod.fst).filter
        (fun x => decide (npQuantile (((depeg_magnitudes.zip regimes).filter
          (fun p => decide (p.2 = regime.val))).map Prod.fst) (9/10) < x))).length < 10 ∨
      (((event_times.zip regimes).filter
        (fun p => decide (p.2 = regime.val))).map Prod.fst).length < 3) :
    (∀ t, simulateHazards O cfg
        (fitCalibratorRegime fitMleEVT mleHawkes E depeg_magnitudes event_times
          regimes obs regime) regime tenors n_sims t = baseRates regime t) ∧
    baseRates .CALM 7 = 1/10000 ∧ baseRates .CALM 30 = 5/10000 ∧
    baseRates .CALM 90 = 15/10000 ∧
    baseRates .VOLATILE 7 = 5/10000 ∧ baseRates .VOLATILE 30 = 25/10000 ∧
    baseRates .VOLATILE 90 = 8/1000 ∧
    baseRates .CRISIS 7 = 2/1000 ∧ baseRates .CRISIS 30 = 1/100 ∧
    baseRates .CRISIS 90 = 35/1000 := by
  have hnone : (fitCalibratorRegime fitMleEVT mleHawkes E depeg_magnitudes
      event_times regimes obs regime).1 = none ∨
      (fitCalibratorRegime fitMleEVT mleHawkes E depeg_magnitudes
        event_times regimes obs regime).2 = none := by
    by_cases hmask : regimes.countP (fun r => decide (r = regime.val)) < 5
    · simp only [fitCalibratorRegime, if_pos hmask]
      exact Or.inl trivial
    · rcases h with h | h | h
      · exact absurd h hmask
      · refine Or.inl ?_
        simp only [fitCalibratorRegime, if_neg hmask]
        have herr : fitEVT fitMleEVT (((depeg_magnitudes.zip regimes).filter
            (fun p => decide (p.2 = regime.val))).map Prod.fst) (9/10) "mle" =
            .error "Insufficient excesses for GPD fitting" := by
          simp only [fitEVT]
          rw [if_neg (by norm_num : ¬ ((9 : ℚ)/10 < 0 ∨ (1 : ℚ) < 9/10)),
            if_pos (by rw [List.length_map]; exact h)]
        rw [herr]
      · refine Or.inr ?_
        simp only [fitCalibratorRegime, if_neg hmask]
        have herr : fitHawkes mleHawkes E (((event_times.zip regimes).filter
            (fun p => decide (p.2 = regime.val))).map Prod.fst) (some obs) "mle" =
            .error "Insufficient events for Hawkes fitting" := by
          simp only [fitHawkes]
          rw [if_pos (by rw [List.length_insertionSort]; exact h)]
        rw [herr]
  refine ⟨fun t => by rw [simulateHazards_default O cfg _ regime tenors n_sims hnone],
    rfl, rfl, rfl, rfl, rfl, rfl, rfl, rfl, rfl⟩

/-- A trivially silent oracle set for concrete instantiations. -/
def nullOracles : SimOracles :=
  ⟨fun _ _ _ => [], fun _ _ => 0, fun _ _ => 0, fun _ _ => 0⟩

/-- Claim C7 witness: with empty historical data the CALM mask has 0 < 5
entries, so the defaults are served; evaluated at tenor 7. -/
theorem calibrator_defaults_on_insufficient_data_witness :
    simulateHazards nullOracles ⟨97/100, 24, 42⟩
      (fitCalibratorRegime (fun _ => (0, 0)) (fun _ _ => (0, 0, 0)) (fun _ => 1)
        [] [] [] 365 .CALM) .CALM [7, 30, 90] 10000 7 = baseRates .CALM 7 ∧
    baseRates .CALM 7 = 1/10000 :=
  ⟨(calibrator_defaults_on_insufficient_data (fun _ => (0, 0)) (fun _ _ => (0, 0, 0))
      (fun _ => 1) nullOracles ⟨97/100, 24, 42⟩ [] [] [] 365 .CALM [7, 30, 90] 10000
      (Or.inl (by decide))).1 7,
   (calibrator_defaults_on_insufficient_data (fun _ => (0, 0)) (fun _ _ => (0, 0, 0))
      (fun _ => 1) nullOracles ⟨97/100, 24, 42⟩ [] [] [] 365 .CALM [7, 30, 90] 10000
      (Or.inl (by decide))).2.1⟩

/-- Claim C8: `calibrate` is a pure function of the fitted models, the
configuration (seed, trigger threshold, dwell) and the call arguments: all
randomness is drawn from the generator seeded with `seed + regime_code` and
from sub-seeds derived from its integer draws (the oracle family `O`), so
two runs on identical fitted state with identical tenors, simulation count,
peril id and seed produce identical `RegimeCurveSet`s. -/
theorem calibrate_deterministic (L : ℚ → ℚ) (O : SimOracles)
    (cfg1 cfg2 : CalibConfig)
    (models1 models2 : RegimeKind → Option GPDParams × Option HawkesParams)
    (tenors : List ℤ) (n_simulations : ℕ) (peril_id : String)
    (hseed : cfg1.seed = cfg2.seed)
    (hthr : cfg1.trigger_threshold = cfg2.trigger_threshold)
    (hdur : cfg1.trigger_duration_hours = cfg2.trigger_duration_hours)
    (hmod : ∀ r, models1 r = models2 r) :
    calibrate L O cfg1 models1 tenors n_simulations peril_id =
      calibrate L O cfg2 models2 tenors n_simulations peril_id := by
  have hcfg : cfg1 = cfg2 := by
    cases cfg1
    cases cfg2
    simp_all
  rw [hcfg, funext hmod]

/-- Claim C8 witness: two syntactically separate runs with equal seed,
thresholds and fitted state coincide. -/
theorem calibrate_deterministic_witness :
    calibrate (fun p => p) nullOracles ⟨97/100, 24, 42⟩ (fun _ => (none, none))
        [7, 30, 90] 10000 "USDC_depeg" =
      calibrate (fun p => p) nullOracles ⟨97/100, 24, 42⟩ (fun _ => (none, none))
        [7, 30, 90] 10000 "USDC_depeg" :=
  calibrate_deterministic (fun p => p) nullOracles ⟨97/100, 24, 42⟩ ⟨97/100, 24, 42⟩
    (fun _ => (none, none)) (fun _ => (none, none)) [7, 30, 90] 10000 "USDC_depeg"
    rfl rfl rfl (fun _ => rfl)

lemma pyInt_nonneg (q : ℚ) (h : 0 ≤ q) : 0 ≤ pyInt q := by
  unfold pyInt
  rw [if_pos h]
  exact Int.floor_nonneg.mpr h

lemma pyInt_mono_of_nonneg (p q : ℚ) (hp : 0 ≤ p) (hpq : p ≤ q) :
    pyInt p ≤ pyInt q := by
  unfold pyInt
  rw [if_pos hp, if_pos (le_trans hp hpq)]
  exact Int.floor_le_floor hpq

lemma probToHazard_nonneg (L : ℚ → ℚ) (hL2 : ∀ p, 0 < p → p < 1 → 0 ≤ L p)
    (p : ℚ) : 0 ≤ probToHazard L p := by
  unfold probToHazard
  by_cases h1 : 1 ≤ p
  · rw [if_pos h1]
    norm_num
  · rw [if_neg h1]
    by_cases h0 : p ≤ 0
    · rw [if_pos h0]
    · rw [if_neg h0]
      exact hL2 p (lt_of_not_le h0) (lt_of_not_le h1)

lemma probToHazard_mono (L : ℚ → ℚ)
    (hL1 : ∀ p q, 0 < p → p ≤ q → q < 1 → L p ≤ L q)
    (hL2 : ∀ p, 0 < p → p < 1 → 0 ≤ L p) (p q : ℚ) (hpq : p ≤ q)
    (hcap : 1 ≤ q → 0 < p → p < 1 → L p ≤ 10) :
    probToHazard L p ≤ probToHazard L q := by
  unfold probToHazard
  by_cases h1q : 1 ≤ q
  · rw [if_pos h1q]
    by_cases h1p : 1 ≤ p
    · rw [if_pos h1p]
    · rw [if_neg h1p]
      by_cases h0p : p ≤ 0
      · rw [if_pos h0p]
        norm_num
      · rw [if_neg h0p]
        exact hcap h1q (lt_of_not_le h0p) (lt_of_not_le h1p)
  · rw [if_neg h1q]
    have h1p : ¬ 1 ≤ p := fun h => h1q (le_trans h hpq)
    rw [if_neg h1p]
    by_cases h0q : q ≤ 0
    · rw [if_pos h0q, if_pos (le_trans hpq h0q)]
    · rw [if_neg h0q]
      by_cases h0p : p ≤ 0
      · rw [if_pos h0p]
        exact hL2 q (lt_of_not_le h0q) (lt_of_not_le h1q)
      · rw [if_neg h0p]
        exact hL1 p q (lt_of_not_le h0p) hpq (lt_of_not_le h1q)

lemma buildCurve_ok (L : ℚ → ℚ)
    (hL1 : ∀ p q, 0 < p → p ≤ q → q < 1 → L p ≤ L q)
    (hL2 : ∀ p, 0 < p → p < 1 → 0 ≤ L p)
    (regime : RegimeKind) (tenors : List ℤ) (hz : ℤ → ℚ)
    (h12 : hz 7 ≤ hz 30) (h23 : hz 30 ≤ hz 90)
    (hcap7 : 1 ≤ hz 30 → 0 < hz 7 → hz 7 < 1 → L (hz 7) ≤ 10)
    (hcap30 : 1 ≤ hz 90 → 0 < hz 30 → hz 30 < 1 → L (hz 30) ≤ 10) :
    curveMonotoneOK (buildCurve L regime tenors hz) := by
  have hS : (0 : ℚ) ≤ 10^18 := by norm_num
  have H70 : 0 ≤ probToHazard L (hz 7) := probToHazard_nonneg L hL2 _
  have H300 : 0 ≤ probToHazard L (hz 30) := probToHazard_nonneg L hL2 _
  have H7le : probToHazard L (hz 7) ≤ probToHazard L (hz 30) :=
    probToHazard_mono L hL1 hL2 _ _ h12 hcap7
  have H30le : probToHazard L (hz 30) ≤ probToHazard L (hz 90) :=
    probToHazard_mono L hL1 hL2 _ _ h23 hcap30
  refine ⟨?_, ?_, ?_, ?_⟩
  · exact pyInt_nonneg _ (mul_nonneg H70 hS)
  · exact pyInt_mono_of_nonneg _ _ (mul_nonneg H70 hS)
      (mul_le_mul_of_nonneg_right H7le hS)
  · exact pyInt_mono_of_nonneg _ _ (mul_nonneg H300 hS)
      (mul_le_mul_of_nonneg_right H30le hS)
  · apply pyInt_nonneg
    have hd : 0 ≤ probToHazard L (hz 90) - probToHazard L (hz 30) := by linarith
    positivity

lemma foldl_if_or {α : Type} (p : α → Bool) (l : List α) :
    ∀ acc : Bool, l.foldl (fun a e => if p e then true else a) acc = (acc || l.any p) := by
  induction l with
  | nil => intro acc; simp
  | cons e l ih =>
    intro acc
    simp only [List.foldl_cons, List.any_cons]
    rw [ih]
    cases hp : p e <;> cases acc <;> simp [hp]

lemma pathTriggered_eq_any (cfg : CalibConfig) (t : ℤ) (path : List SimEvent) :
    pathTriggered cfg t path =
      path.any (fun e => eventTriggers cfg e && decide (e.time ≤ (t : ℚ))) := by
  unfold pathTriggered
  rw [foldl_if_or]
  simp

lemma pathTriggered_mono (cfg : CalibConfig) (t1 t2 : ℤ) (h : t1 ≤ t2)
    (path : List SimEvent) :
    pathTriggered cfg t1 path = true → pathTriggered cfg t2 path = true := by
  rw [pathTriggered_eq_any, pathTriggered_eq_any]
  intro h1
  rw [List.any_eq_true] at h1 ⊢
  obtain ⟨e, he, hpe⟩ := h1
  rw [Bool.and_eq_true, decide_eq_true_eq] at hpe
  refine ⟨e, he, ?_⟩
  rw [Bool.and_eq_true, decide_eq_true_eq]
  have : ((t1 : ℚ)) ≤ ((t2 : ℚ)) := by exact_mod_cast h
  exact ⟨hpe.1, le_trans hpe.2 this⟩

lemma genPaths_length (O : SimOracles) (cfg : CalibConfig) (evt : GPDParams)
    (hawkes : HawkesParams) (maxT : ℚ) (s : ℕ) :
    ∀ n c, (genPaths O cfg evt hawkes maxT s n c).length = n := by
  intro n
  induction n with
  | zero => intro c; rfl
  | succ m ih =>
    intro c
    simp only [genPaths, List.length_cons, ih]

lemma calibrate_regime_curve_ok (L : ℚ → ℚ) (O : SimOracles) (cfg : CalibConfig)
    (mp : Option GPDParams × Option HawkesParams) (regime : RegimeKind) (n_sims : ℕ)
    (hL1 : ∀ p q : ℚ, 0 < p → p ≤ q → q < 1 → L p ≤ L q)
    (hL2 : ∀ p : ℚ, 0 < p → p < 1 → 0 ≤ L p)
    (hL3 : ∀ k : ℕ, 0 < k → (k : ℚ) < (n_sims : ℚ) → L ((k : ℚ) / (n_sims : ℚ)) ≤ 10) :
    curveMonotoneOK (buildCurve L regime [7, 30, 90]
      (simulateHazards O cfg mp regime [7, 30, 90] n_sims)) := by
  obtain ⟨me, mh⟩ := mp
  rcases me with _ | evt
  · rw [simulateHazards_default O cfg (none, mh) regime [7, 30, 90] n_sims (Or.inl rfl)]
    cases regime <;> apply buildCurve_ok L hL1 hL2 <;> norm_num [baseRates]
  · rcases mh with _ | hawkes
    · rw [simulateHazards_default O cfg (some evt, none) regime [7, 30, 90] n_sims
        (Or.inr rfl)]
      cases regime <;> apply buildCurve_ok L hL1 hL2 <;> norm_num [baseRates]
    · have hc12 : (genPaths O cfg evt hawkes ((listMaxInt [7, 30, 90] : ℤ) : ℚ)
          (cfg.seed + regime.val) n_sims 0).countP (pathTriggered cfg 7) ≤
          (genPaths O cfg evt hawkes ((listMaxInt [7, 30, 90] : ℤ) : ℚ)
            (cfg.seed + regime.val) n_sims 0).countP (pathTriggered cfg 30) :=
        List.countP_mono_left
          (fun x _ hx => pathTriggered_mono cfg 7 30 (by norm_num) x hx)
      have hc23 : (genPaths O cfg evt hawkes ((listMaxInt [7, 30, 90] : ℤ) : ℚ)
          (cfg.seed + regime.val) n_sims 0).countP (pathTriggered cfg 30) ≤
          (genPaths O cfg evt hawkes ((listMaxInt [7, 30, 90] : ℤ) : ℚ)
            (cfg.seed + regime.val) n_sims 0).countP (pathTriggered cfg 90) :=
        List.countP_mono_left
          (fun x _ hx => pathTriggered_mono cfg 30 90 (by norm_num) x hx)
      apply buildCurve_ok L hL1 hL2
      · show ((genPaths O cfg evt hawkes _ _ n_sims 0).countP (pathTriggered cfg 7) : ℚ)
            / (n_sims : ℚ) ≤ _ / (n_sims : ℚ)
        exact div_le_div_of_nonneg_right (by exact_mod_cast hc12) (Nat.cast_nonneg _)
      · show ((genPaths O cfg evt hawkes _ _ n_sims 0).countP (pathTriggered cfg 30) : ℚ)
            / (n_sims : ℚ) ≤ _ / (n_sims : ℚ)
        exact div_le_div_of_nonneg_right (by exact_mod_cast hc23) (Nat.cast_nonneg _)
      · intro _ h0 h1
        simp only [simulateHazards] at h0 h1 ⊢
        rcases Nat.eq_zero_or_pos n_sims with rfl | hn
        · rw [Nat.cast_zero, div_zero] at h0
          exact absurd h0 (by norm_num)
        · have hnq : (0 : ℚ) < (n_sims : ℚ) := by exact_mod_cast hn
          have hc0 : 0 < (genPaths O cfg evt hawkes ((listMaxInt [7, 30, 90] : ℤ) : ℚ)
              (cfg.seed + regime.val) n_sims 0).countP (pathTriggered cfg 7) := by
            by_contra hc
            push_neg at hc
            rw [Nat.le_zero.mp hc] at h0
            norm_num at h0
          have hclt : (((genPaths O cfg evt hawkes ((listMaxInt [7, 30, 90] : ℤ) : ℚ)
              (cfg.seed + regime.val) n_sims 0).countP (pathTriggered cfg 7) : ℕ) : ℚ)
              < (n_sims : ℚ) := (div_lt_one hnq).mp h1
          exact hL3 _ hc0 hclt
      · intro _ h0 h1
        simp only [simulateHazards] at h0 h1 ⊢
        rcases Nat.eq_zero_or_pos n_sims with rfl | hn
        · rw [Nat.cast_zero, div_zero] at h0
          exact absurd h0 (by norm_num)
        · have hnq : (0 : ℚ) < (n_sims : ℚ) := by exact_mod_cast hn
          have hc0 : 0 < (genPaths O cfg evt hawkes ((listMaxInt [7, 30, 90] : ℤ) : ℚ)
              (cfg.seed + regime.val) n_sims 0).countP (pathTriggered cfg 30) := by
            by_contra hc
            push_neg at hc
            rw [Nat.le_zero.mp hc] at h0
            norm_num at h0
          have hclt : (((genPaths O cfg evt hawkes ((listMaxInt [7, 30, 90] : ℤ) : ℚ)
              (cfg.seed + regime.val) n_sims 0).countP (pathTriggered cfg 30) : ℕ) : ℚ)
              < (n_sims : ℚ) := (div_lt_one hnq).mp h1
          exact hL3 _ hc0 hclt

/-- Claim C1 (amended): every curve produced by `calibrate` with the default
tenors `[7, 30, 90]` — from Monte-Carlo simulation or from the hard-coded
defaults — satisfies `0 ≤ H_7d ≤ H_30d ≤ H_90d` and `tail_slope ≥ 0`,
PROVIDED the hazard transform stays at or below the `p ≥ 1` cap of 10 on the
attainable trigger frequencies `k / n_simulations < 1`.  For the real
transform `-ln(1 - p)` this proviso means `n_simulations ≤ e^10 ≈ 22026`
(true for the default 10000); the counterexample theorem shows the claim
fails without it. -/
theorem calibrate_curves_monotone (L : ℚ → ℚ) (O : SimOracles) (cfg : CalibConfig)
    (models : RegimeKind → Option GPDParams × Option HawkesParams)
    (n_sims : ℕ) (peril_id : String)
    (hL1 : ∀ p q : ℚ, 0 < p → p ≤ q → q < 1 → L p ≤ L q)
    (hL2 : ∀ p : ℚ, 0 < p → p < 1 → 0 ≤ L p)
    (hL3 : ∀ k : ℕ, 0 < k → (k : ℚ) < (n_sims : ℚ) → L ((k : ℚ) / (n_sims : ℚ)) ≤ 10) :
    curveMonotoneOK ((calibrate L O cfg models [7, 30, 90] n_sims peril_id).calm) ∧
    curveMonotoneOK ((calibrate L O cfg models [7, 30, 90] n_sims peril_id).volatile) ∧
    curveMonotoneOK ((calibrate L O cfg models [7, 30, 90] n_sims peril_id).crisis) :=
  ⟨calibrate_regime_curve_ok L O cfg (models .CALM) .CALM n_sims hL1 hL2 hL3,
   calibrate_regime_curve_ok L O cfg (models .VOLATILE) .VOLATILE n_sims hL1 hL2 hL3,
   calibrate_regime_curve_ok L O cfg (models .CRISIS) .CRISIS n_sims hL1 hL2 hL3⟩

/-- Claim C1 witness: the identity transform satisfies all three provisos at
`n_simulations = 10000`, so the default-rate curves are monotone. -/
theorem calibrate_curves_monotone_witness :
    curveMonotoneOK ((calibrate (fun p => p) nullOracles ⟨97/100, 24, 42⟩
        (fun _ => (none, none)) [7, 30, 90] 10000 "USDC_depeg").calm) ∧
    curveMonotoneOK ((calibrate (fun p => p) nullOracles ⟨97/100, 24, 42⟩
        (fun _ => (none, none)) [7, 30, 90] 10000 "USDC_depeg").volatile) ∧
    curveMonotoneOK ((calibrate (fun p => p) nullOracles ⟨97/100, 24, 42⟩
        (fun _ => (none, none)) [7, 30, 90] 10000 "USDC_depeg").crisis) :=
  calibrate_curves_monotone (fun p => p) nullOracles ⟨97/100, 24, 42⟩
    (fun _ => (none, none)) 10000 "USDC_depeg"
    (fun _ _ _ h _ => h)
    (fun p hp _ => le_of_lt hp)
    (fun k hk hlt => by
      have hn : (0 : ℚ) < ((10000 : ℕ) : ℚ) := by norm_num
      have := (div_lt_one hn).mpr hlt
      linarith)

/-- Counterexample configuration: the default calibrator knobs. -/
def cexCfg : CalibConfig := ⟨97/100, 24, 42⟩

/-- A fitted GPD parameter set for the counterexample regime. -/
def cexGpd : GPDParams := ⟨1/2, 50, 300, 10, 100⟩

/-- A fitted (stable) Hawkes parameter set for the counterexample regime. -/
def cexHawkes : HawkesParams := ⟨1/10, 1/2, 1⟩

/-- Counterexample fitted state: every regime has both models. -/
def cexModels : RegimeKind → Option GPDParams × Option HawkesParams :=
  fun _ => (some cexGpd, some cexHawkes)

/-- Counterexample oracles: the generator's k-th integer draw is `k`; each
Hawkes simulation returns a single event, at day 1 for the first 32767 paths
(seeds 0, 4, ..., 131064) and at day 20 for the last one (seed 131068);
every magnitude draw is 400 bps (a 4 % depeg, past the 3 % trigger) and
every duration draw is the mean (43.2 h ≥ 24 h dwell). -/
def cexO : SimOracles :=
  { hawkesSim := fun _ _ s => if s ≤ 131064 then [1] else [20]
    evtSim := fun _ _ => 400
    intDraw := fun _ k => k
    expDraw := fun _ _ => 1 }

/-- The path simulated in the first 32767 iterations: one triggering event
on day 1. -/
def cexPathA : List SimEvent := [⟨1, 400, 216/5⟩]

/-- The path of the last iteration: one triggering event on day 20 (inside
the 30- and 90-day tenors but past the 7-day tenor). -/
def cexPathB : List SimEvent := [⟨20, 400, 216/5⟩]

lemma cexGenOne (maxT : ℚ) (s c : ℕ) :
    genOnePath cexO cexCfg cexGpd cexHawkes maxT s c =
      ((if c ≤ 131064 then cexPathA else cexPathB), c + 4) := by
  by_cases h : c ≤ 131064
  · rw [if_pos h]
    simp only [genOnePath, cexO, if_pos h, sampleEvents]
    rw [if_pos (show (1 : ℚ) - 400/10000 < cexCfg.trigger_threshold by
      norm_num [cexCfg])]
    simp only [sampleEvents, cexPathA]
    refine Prod.ext ?_ ?_ <;> simp
    · norm_num
  · rw [if_neg h]
    simp only [genOnePath, cexO, if_neg h, sampleEvents]
    rw [if_pos (show (1 : ℚ) - 400/10000 < cexCfg.trigger_threshold by
      norm_num [cexCfg])]
    simp only [sampleEvents, cexPathB]
    refine Prod.ext ?_ ?_ <;> simp
    · norm_num

lemma cexGenPaths (maxT : ℚ) (s : ℕ) : ∀ (n c : ℕ),
    genPaths cexO cexCfg cexGpd cexHawkes maxT s n c =
      (List.range n).map (fun i => if c + 4 * i ≤ 131064 then cexPathA else cexPathB) := by
  intro n
  induction n with
  | zero => intro c; rfl
  | succ m ih =>
    intro c
    simp only [genPaths, cexGenOne]
    rw [ih (c + 4), List.range_succ_eq_map, List.map_cons, List.map_map]
    congr 1
    apply List.map_congr_left
    intro a ha
    simp only [Function.comp, Nat.succ_eq_add_one]
    have harith : c + 4 + 4 * a = c + 4 * (a + 1) := by omega
    rw [harith]

lemma cexTrigA7 : pathTriggered cexCfg 7 cexPathA = true := by
  norm_num [pathTriggered, eventTriggers, cexPathA, cexCfg]

lemma cexTrigB7 : pathTriggered cexCfg 7 cexPathB = false := by
  norm_num [pathTriggered, eventTriggers, cexPathB, cexCfg]

lemma cexTrigA30 : pathTriggered cexCfg 30 cexPathA = true := by
  norm_num [pathTriggered, eventTriggers, cexPathA, cexCfg]

lemma cexTrigB30 : pathTriggered cexCfg 30 cexPathB = true := by
  norm_num [pathTriggered, eventTriggers, cexPathB, cexCfg]

lemma countP_range_le (K : ℕ) : ∀ n : ℕ,
    (List.range n).countP (fun i => decide (i ≤ K)) = min (K + 1) n := by
  intro n
  induction n with
  | zero => simp
  | succ m ih =>
    rw [List.range_succ, List.countP_append, ih]
    by_cases h : m ≤ K
    · rw [List.countP_cons]
      simp only [List.countP_nil, decide_eq_true_eq]
      rw [if_pos h]
      omega
    · rw [List.countP_cons]
      simp only [List.countP_nil, decide_eq_true_eq]
      rw [if_neg h]
      omega

lemma cexCount7 :
    ((List.range 32768).map
      (fun i => if 0 + 4 * i ≤ 131064 then cexPathA else cexPathB)).countP
        (pathTriggered cexCfg 7) = 32767 := by
  rw [List.countP_map]
  have hcongr : (List.range 32768).countP
      (pathTriggered cexCfg 7 ∘ fun i => if 0 + 4 * i ≤ 131064 then cexPathA else cexPathB) =
      (List.range 32768).countP (fun i => decide (i ≤ 32766)) := by
    apply List.countP_congr
    intro i _
    simp only [Function.comp]
    by_cases h : 0 + 4 * i ≤ 131064
    · have hi : i ≤ 32766 := by omega
      rw [if_pos h, cexTrigA7]
      simp [hi]
    · have hi : ¬ (i ≤ 32766) := by omega
      rw [if_neg h, cexTrigB7]
      simp [hi]
  rw [hcongr, countP_range_le]
  omega

lemma cexCount30 :
    ((List.range 32768).map
      (fun i => if 0 + 4 * i ≤ 131064 then cexPathA else cexPathB)).countP
        (pathTriggered cexCfg 30) = 32768 := by
  have hall : ∀ x ∈ (List.range 32768).map
      (fun i => if 0 + 4 * i ≤ 131064 then cexPathA else cexPathB),
      pathTriggered cexCfg 30 x = true := by
    intro x hx
    obtain ⟨i, _, rfl⟩ := List.mem_map.mp hx
    by_cases h : 0 + 4 * i ≤ 131064
    · rw [if_pos h]
      exact cexTrigA30
    · rw [if_neg h]
      exact cexTrigB30
  rw [List.countP_eq_length.mpr hall, List.length_map, List.length_range]

lemma cexProb7 : simulateHazards cexO cexCfg (cexModels .CALM) .CALM
    [7, 30, 90] 32768 7 = 32767/32768 := by
  simp only [simulateHazards, cexModels]
  rw [cexGenPaths, cexCount7]
  norm_num

lemma cexProb30 : simulateHazards cexO cexCfg (cexModels .CALM) .CALM
    [7, 30, 90] 32768 30 = 1 := by
  simp only [simulateHazards, cexModels]
  rw [cexGenPaths, cexCount30]
  norm_num

/-- Claim C1 counterexample: with 32768 simulations in which 32767 paths
trigger by day 1 and the last path triggers only on day 20 — an outcome the
thinning sampler can produce — the CALM trigger frequencies are
`P(7) = 32767/32768` and `P(30) = P(90) = 1`.  Then
`H_7d = int(-ln(1/32768)·10^18) = int(15·ln 2·10^18) > 10^19` while the
`p ≥ 1` cap makes `H_30d = int(10·10^18) = 10^19`, so the calibrated CALM
curve violates `H_7d ≤ H_30d`: the claim fails as stated once
`n_simulations` exceeds `e^10 ≈ 22026`. -/
theorem calibrate_monotone_cex :
    ¬ curveMonotoneOK ((calibrateR cexO cexCfg cexModels [7, 30, 90] 32768
      "USDC_depeg").calm) := by
  intro hOK
  have h2 := hOK.2.1
  have hH30 : ((calibrateR cexO cexCfg cexModels [7, 30, 90] 32768
      "USDC_depeg").calm).H_30d = 10000000000000000000 := by
    show pyIntR (probToHazardR (simulateHazards cexO cexCfg (cexModels .CALM)
      .CALM [7, 30, 90] 32768 30) * 10^18) = 10000000000000000000
    rw [cexProb30]
    rw [show probToHazardR 1 = (10 : ℝ) from by simp [probToHazardR]]
    unfold pyIntR
    rw [if_pos (by norm_num : (0:ℝ) ≤ 10 * 10^18)]
    rw [show ((10 : ℝ) * 10^18) = ((10000000000000000000 : ℤ) : ℝ) by norm_num]
    exact Int.floor_intCast _
  have hH7 : (10000000000000000000 : ℤ) <
      ((calibrateR cexO cexCfg cexModels [7, 30, 90] 32768
        "USDC_depeg").calm).H_7d := by
    show (10000000000000000000 : ℤ) <
      pyIntR (probToHazardR (simulateHazards cexO cexCfg (cexModels .CALM)
        .CALM [7, 30, 90] 32768 7) * 10^18)
    rw [cexProb7]
    have hform : probToHazardR (32767/32768) = Real.log 32768 := by
      unfold probToHazardR
      rw [if_neg (by norm_num), if_neg (by norm_num)]
      have h1 : (1 : ℝ) - ((32767/32768 : ℚ) : ℝ) = (32768 : ℝ)⁻¹ := by
        push_cast
        norm_num
      rw [h1, Real.log_inv, neg_neg]
    rw [hform]
    have hlog : (103 : ℝ)/10 < Real.log 32768 := by
      have h32 : (32768 : ℝ) = 2^15 := by norm_num
      rw [h32, Real.log_pow]
      have hl2 := Real.log_two_gt_d9
      push_cast
      nlinarith
    have hnn : (0 : ℝ) ≤ Real.log 32768 * 10^18 :=
      mul_nonneg (le_trans (by norm_num) (le_of_lt hlog)) (by norm_num)
    unfold pyIntR
    rw [if_pos hnn]
    have hfl : ((10000000000000000001 : ℤ) : ℝ) ≤ Real.log 32768 * 10^18 := by
      have hmul := mul_lt_mul_of_pos_right hlog
        (show (0 : ℝ) < 10^18 by norm_num)
      push_cast
      nlinarith [hmul]
    have := Int.le_floor.mpr hfl
    omega
  rw [hH30] at h2
  omega
